import Mathlib

/-!
# ette: block ingestion core

A shallow embedding of the block package (`app/block/block.go`,
`app/block/transaction.go`, `app/block/fetch.go`) and of the transaction
consumer (`app/pubsub/transaction.go`).

Conventions of the embedding.

* A Go `string` is an immutable byte sequence, so strings the code builds or
  inspects (hex renderings, payload fields, retry queue entries) are lists of
  bytes, `GoString`. String constants that are only compared as a whole
  (the mode, topic names, log lines) are Lean strings.
* Calls that leave the process (node client, database, Redis, lock manager)
  are answered by an environment record; every such call is also recorded, in
  program order, in a trace of `Ev` events.
* Unsigned 64-bit counters are natural numbers reduced modulo `2^64`.
* A log line is recorded by its fixed text, without the formatted values.
* The three files of the block package are embedded side by side, each in a
  namespace of its own, since `transaction.go` and `fetch.go` both declare
  `FetchTransactionByHash`.
-/

namespace Ette

/-! ## Strings and library values -/

/-- A Go string: a sequence of bytes. -/
abbrev GoString := List Nat

/-- The Go literal `"0x"`. -/
def zeroX : GoString := [48, 120]

/-- Decimal rendering of an unsigned integer, as `fmt.Sprintf("%d", n)` and
`(*big.Int).String()` produce it for a non-negative value. -/
def decimal (n : Nat) : GoString := (Nat.toDigits 10 n).map Char.toNat

/-- A `common.Hash`, identified by the hex digits `Hex()` prints after `0x`. -/
structure Hash where
  digits : GoString
deriving DecidableEq, Repr

/-- Rendering `common.Hash.Hex()`: the digits behind a `0x` prefix. -/
def Hash.Hex (h : Hash) : GoString := zeroX ++ h.digits

/-- A `common.Address`, identified by the (checksummed) hex digits `Hex()`
prints after `0x`. -/
structure Address where
  digits : GoString
deriving DecidableEq, Repr

/-- Rendering `common.Address.Hex()`: the digits behind a `0x` prefix. -/
def Address.Hex (a : Address) : GoString := zeroX ++ a.digits

/-- A `types.Log` entry of a receipt. -/
structure Log where
  Address : Ette.Address
  Topics : List Ette.Hash
  Data : List Nat
  TxHash : Ette.Hash
  BlockHash : Ette.Hash
  Index : Nat
deriving DecidableEq, Repr

/-- A `types.Receipt`. -/
structure Receipt where
  Status : Nat
  ContractAddress : Ette.Address
  BlockHash : Ette.Hash
  TransactionIndex : Nat
  Logs : List Log
deriving DecidableEq, Repr

/-- A `types.Transaction`, by the accessors the block package calls;
`To` is `none` for a contract creation (`tx.To() == nil`). -/
structure Tx where
  Hash : Ette.Hash
  To : Option Ette.Address
  Value : Nat
  Data : List Nat
  Gas : Nat
  GasPrice : Nat
  Cost : Nat
  Nonce : Nat
deriving DecidableEq, Repr

/-- A `types.Block`, by the accessors the block package calls. `Size` is the
encoded size in bytes. -/
structure Block where
  Hash : Ette.Hash
  Number : Nat
  Time : Nat
  ParentHash : Ette.Hash
  Difficulty : Nat
  GasUsed : Nat
  GasLimit : Nat
  Nonce : Nat
  Coinbase : Ette.Address
  Size : Nat
  TxHash : Ette.Hash
  ReceiptHash : Ette.Hash
  Transactions : List Tx
deriving DecidableEq, Repr

/-! ## Published records (`app/data`) -/

namespace Data

/-- Record `d.Block`, by the fields `publishBlock` fills. -/
structure Block where
  Hash : GoString := []
  Number : Nat := 0
  Time : Nat := 0
  ParentHash : GoString := []
  Difficulty : GoString := []
  GasUsed : Nat := 0
  GasLimit : Nat := 0
  Nonce : Nat := 0
  Miner : GoString := []
  Size : Nat := 0
  TransactionRootHash : GoString := []
  ReceiptRootHash : GoString := []
deriving DecidableEq, Repr

/-- Record `d.Transaction`; a field left out of a Go composite literal has its
zero value, here the default. -/
structure Transaction where
  Hash : GoString := []
  From : GoString := []
  To : GoString := []
  Contract : GoString := []
  Value : GoString := []
  Data : List Nat := []
  Gas : Nat := 0
  GasPrice : GoString := []
  Cost : GoString := []
  Nonce : Nat := 0
  State : Nat := 0
  BlockHash : GoString := []
deriving DecidableEq, Repr

/-- Record `d.Event`. -/
structure Event where
  Origin : GoString := []
  Index : Nat := 0
  Topics : List GoString := []
  Data : List Nat := []
  TransactionHash : GoString := []
  BlockHash : GoString := []
deriving DecidableEq, Repr

/-- Counters `d.ResultStatus` of the drain loop (both `uint64`). -/
structure ResultStatus where
  Success : Nat := 0
  Failure : Nat := 0
deriving DecidableEq, Repr

/-- Modelled from the spec: `ResultStatus.Total` lives in `app/data`, which is
not among the sources; the number of results drained so far is the sum of the
two counters (spec 4.5, step 6), in `uint64` arithmetic. -/
def ResultStatus.Total (r : ResultStatus) : Nat :=
  (r.Success + r.Failure) % 2 ^ 64

end Data

/-- Modelled from the spec: `c.StringifyEventTopics` lives in `app/common`,
which is not among the sources; topics are published as an array of hex
encoded hashes carrying the `0x` prefix (spec 6). -/
def StringifyEventTopics (topics : List Hash) : List GoString :=
  topics.map Hash.Hex

/-- Modelled from the spec: `db.PackedTransaction` and `BuildPackedTx` are not
among the sources; a worker reports the transaction together with the sender
and receipt it fetched (spec 4.5, step 5). -/
structure PackedTransaction where
  Tx : Ette.Tx
  Sender : Ette.Address
  Receipt : Ette.Receipt
deriving DecidableEq, Repr

/-- Modelled from the spec: see `PackedTransaction`. -/
def BuildPackedTx (tx : Tx) (sender : Address) (receipt : Receipt) : PackedTransaction :=
  { Tx := tx, Sender := sender, Receipt := receipt }

/-! ## Effects -/

/-- What is handed to `redis.Client.Publish`. -/
inductive Payload where
  | block (b : Data.Block)
  | transaction (t : Data.Transaction)
  | event (e : Data.Event)
deriving DecidableEq, Repr

/-- A channel created by `make(chan bool)`, by identity. -/
abbrev Chan := Nat

/-- One observable step of the block package. -/
inductive Ev where
  /-- Call `client.BlockByHash`. -/
  | blockByHash (hash : Hash)
  /-- Call `client.BlockByNumber`. -/
  | blockByNumber (number : Nat)
  /-- Call `client.TransactionReceipt`. -/
  | transactionReceipt (txHash : Hash)
  /-- Call `client.TransactionSender`. -/
  | transactionSender (txHash : Hash)
  /-- Call `db.StoreBlock`. -/
  | storeBlock (block : Block)
  /-- Call `db.StoreTransaction`. -/
  | storeTransaction (tx : Tx) (receipt : Receipt) (sender : Address)
  /-- Call `db.StoreEvents`. -/
  | storeEvents (receipt : Receipt)
  /-- Call `redis.Client.Publish` on a topic. -/
  | publish (topic : String) (payload : Payload)
  /-- Push on the retry queue (`pushBlockHashIntoRedisQueue`,
  `PushBlockIntoRetryQueue`). -/
  | pushRetry (number : GoString)
  /-- Call `RemoveBlockFromAttemptCountTrackerTable`. -/
  | removeAttemptCount (number : GoString)
  /-- A line written with `log.Print` or `log.Printf`. -/
  | log (line : String)
  /-- Job handed to the worker pool: `FetchTransactionByHash` for one tx. -/
  | submit (tx : Tx) (publishable : Bool)
  /-- Call `wp.Stop`. -/
  | stopPool
  /-- Call `status.IncrementBlocksProcessed` (`safeUpdationOfSyncState`). -/
  | incrementBlocksProcessed
  /-- Send of a status on `returnValChan` (`chan bool`). -/
  | sendStatus (status : Bool)
  /-- Send of a result on `returnValChan` (`chan *db.PackedTransaction`). -/
  | sendPacked (result : Option PackedTransaction)
  /-- Call `lock.Acquire` with a request for a block number and a channel. -/
  | acquire (number : Nat) (comm : Chan)
  /-- Receive of the verdict on the request channel (`<-comm`). -/
  | awaitVerdict (comm : Chan)
  /-- Call `lock.Release`. -/
  | release (comm : Chan)
  /-- Call `ProcessBlockContent`. -/
  | processBlockContent (block : Block) (publishable : Bool)
deriving DecidableEq, Repr

/-- How a function body ended. -/
inductive Exit where
  /-- The function returned. -/
  | returned
  /-- A channel receive that nothing will ever answer. -/
  | blocked
  /-- A run-time panic. -/
  | panicked
deriving DecidableEq, Repr

/-- The steps of a call, in program order, and how it ended. -/
structure Run where
  trace : List Ev
  exit : Exit
deriving DecidableEq, Repr

/-- The retry queue pushes of a trace, in order. -/
def pushes (t : List Ev) : List GoString :=
  t.filterMap fun e => match e with
    | .pushRetry s => some s
    | _ => none

/-- The number of `blocks_processed` increments of a trace. -/
def increments (t : List Ev) : Nat := t.count .incrementBlocksProcessed

/-- The answers of the node, the database and Redis to the calls of
`block.go` and `transaction.go`, and the configured mode. -/
structure Env where
  /-- Value `cfg.Get("EtteMode")`. -/
  EtteMode : String
  /-- Answer `client.BlockByHash`; `none` is an error. -/
  BlockByHash : Hash → Option Block
  /-- Answer `client.BlockByNumber`; `none` is an error. -/
  BlockByNumber : Nat → Option Block
  /-- Answer `client.TransactionReceipt`; `none` is an error. -/
  TransactionReceipt : Hash → Option Receipt
  /-- Answer `client.TransactionSender`; `none` is an error. -/
  TransactionSender : Tx → Hash → Nat → Option Address
  /-- Answer `db.StoreBlock`. -/
  StoreBlock : Block → Bool
  /-- Answer `db.StoreTransaction`. -/
  StoreTransaction : Tx → Receipt → Address → Bool
  /-- Answer `db.StoreEvents`. -/
  StoreEvents : Receipt → Bool
  /-- Whether `redis.Client.Publish(...).Err()` is `nil`. -/
  Publish : String → Payload → Bool

/-! ## `app/block/block.go` -/

namespace BlockGo

/-- Conversion `int(x)` of a `uint64` on a 64-bit platform. -/
def toInt (x : Nat) : Int :=
  if x % 2 ^ 64 < 2 ^ 63 then ((x % 2 ^ 64 : Nat) : Int) else ((x % 2 ^ 64 : Nat) : Int) - 2 ^ 64

/-- State of the drain loop of `FetchBlockContent`: the counters, the
pre-sized slice (`none` is a nil pointer), and how many values were received
from the channel so far. -/
structure DrainState where
  result : Data.ResultStatus
  packedTxs : List (Option PackedTransaction)
  received : Nat
deriving DecidableEq, Repr

/-- The loop `for v := range returnValChan` of `FetchBlockContent`, run on the
values the channel delivers, in arrival order; `n` is
`block.Transactions().Len()`. The channel is never closed, so running out of
values blocks; an index outside the slice panics. -/
def drainLoop (n : Nat) : List (Option PackedTransaction) → DrainState → Exit × DrainState
  | [], st => (.blocked, st)
  | v :: rest, st =>
    let result : Data.ResultStatus :=
      if v.isSome then { st.result with Success := (st.result.Success + 1) % 2 ^ 64 }
      else { st.result with Failure := (st.result.Failure + 1) % 2 ^ 64 }
    let total : Int := toInt result.Total
    if 0 ≤ total - 1 ∧ total - 1 < st.packedTxs.length then
      let st' : DrainState :=
        { result := result
          packedTxs := st.packedTxs.set (total - 1).toNat v
          received := st.received + 1 }
      if total = n then (.returned, st') else drainLoop n rest st'
    else
      (.panicked, { st with result := result, received := st.received + 1 })

/-- Function `FetchBlockContent`, run on the values `results` that the
workers deliver on `returnValChan`, in arrival order. -/
def FetchBlockContent (block : Block) (publishable : Bool)
    (results : List (Option PackedTransaction)) : Run :=
  if block.Transactions.length = 0 then
    ⟨[.log "[+] Block with 0 tx(s)", .incrementBlocksProcessed], .returned⟩
  else
    let jobs := block.Transactions.map fun tx => Ev.submit tx publishable
    let start : DrainState :=
      { result := {}
        packedTxs := List.replicate block.Transactions.length none
        received := 0 }
    match drainLoop block.Transactions.length results start with
    | (.returned, st) =>
      if st.result.Failure = 0 then
        ⟨jobs ++ [.stopPool, .log "[+] Block with tx(s)", .incrementBlocksProcessed], .returned⟩
      else
        ⟨jobs ++ [.stopPool, .pushRetry (decimal block.Number)], .returned⟩
    | (e, _) => ⟨jobs, e⟩

/-- Closure `publishBlock` of `fetchBlockByHash`: the block record goes to
topic `block`; a failure is logged and nothing else. -/
def publishBlock (env : Env) (block : Block) : List Ev :=
  let payload := Payload.block
    { Hash := block.Hash.Hex
      Number := block.Number
      Time := block.Time
      ParentHash := block.ParentHash.Hex
      Difficulty := decimal block.Difficulty
      GasUsed := block.GasUsed
      GasLimit := block.GasLimit
      Nonce := block.Nonce
      Miner := block.Coinbase.Hex
      Size := block.Size
      TransactionRootHash := block.TxHash.Hex
      ReceiptRootHash := block.ReceiptHash.Hex }
  if env.Publish "block" payload then [.publish "block" payload]
  else [.publish "block" payload, .log "[!] Failed to publish block in channel"]

/-- The statement `switch cfg.Get("EtteMode")` of `fetchBlockByHash`, for a
fetched block: its steps, and whether control goes on to `FetchBlockContent`
(`false` is the early `return`). -/
def fetchBlockByHash.switch (env : Env) (block : Block) (number : GoString) : List Ev × Bool :=
  if env.EtteMode = "1" then
    if !env.StoreBlock block then ([.storeBlock block, .pushRetry number], false)
    else ([.storeBlock block], true)
  else if env.EtteMode = "2" then
    (publishBlock env block, true)
  else if env.EtteMode = "3" then
    if !env.StoreBlock block then
      (publishBlock env block ++ [.storeBlock block, .pushRetry number], false)
    else (publishBlock env block ++ [.storeBlock block], true)
  else ([], true)

/-- Function `fetchBlockByHash`; `results` is what the tx workers deliver to
`FetchBlockContent`. -/
def fetchBlockByHash (env : Env) (hash : Hash) (number : GoString)
    (results : List (Option PackedTransaction)) : Run :=
  match env.BlockByHash hash with
  | none =>
    ⟨[.blockByHash hash, .pushRetry number, .log "[!] Failed to fetch block by hash"], .returned⟩
  | some block =>
    match fetchBlockByHash.switch env block number with
    | (steps, false) => ⟨.blockByHash hash :: steps, .returned⟩
    | (steps, true) =>
      let content := FetchBlockContent block true results
      ⟨.blockByHash hash :: steps ++ content.trace, content.exit⟩

/-- Function `fetchBlockByNumber`; `results` is what the tx workers deliver to
`FetchBlockContent`. -/
def fetchBlockByNumber (env : Env) (number : Nat)
    (results : List (Option PackedTransaction)) : Run :=
  match env.BlockByNumber number with
  | none =>
    ⟨[.blockByNumber number, .pushRetry (decimal number),
      .log "[!] Failed to fetch block by number"], .returned⟩
  | some block =>
    if !env.StoreBlock block then
      ⟨[.blockByNumber number, .storeBlock block, .pushRetry (decimal number)], .returned⟩
    else
      let content := FetchBlockContent block false results
      ⟨[.blockByNumber number, .storeBlock block] ++ content.trace, content.exit⟩

end BlockGo

/-! ## `app/block/transaction.go` -/

namespace TransactionGo

/-- The record `_publishTx` that `FetchTransactionByHash` builds. -/
def publishTx (tx : Tx) (receipt : Receipt) (sender : Address) : Data.Transaction :=
  match tx.To with
  | none =>
    { Hash := tx.Hash.Hex
      From := sender.Hex
      Contract := receipt.ContractAddress.Hex
      Value := decimal tx.Value
      Data := tx.Data
      Gas := tx.Gas
      GasPrice := decimal tx.GasPrice
      Cost := decimal tx.Cost
      Nonce := tx.Nonce
      State := receipt.Status
      BlockHash := receipt.BlockHash.Hex }
  | some recipient =>
    { Hash := tx.Hash.Hex
      From := sender.Hex
      To := recipient.Hex
      Value := decimal tx.Value
      Data := tx.Data
      Gas := tx.Gas
      GasPrice := decimal tx.GasPrice
      Cost := decimal tx.Cost
      Nonce := tx.Nonce
      State := receipt.Status
      BlockHash := receipt.BlockHash.Hex }

/-- The record published on topic `event` for one log entry. -/
def publishEvent (v : Log) : Data.Event :=
  { Origin := v.Address.Hex
    Index := v.Index
    Topics := StringifyEventTopics v.Topics
    Data := v.Data
    TransactionHash := v.TxHash.Hex
    BlockHash := v.BlockHash.Hex }

/-- One `Publish` call whose failure is only logged. -/
def publishOrLog (env : Env) (topic : String) (payload : Payload) (line : String) : List Ev :=
  if env.Publish topic payload then [.publish topic payload]
  else [.publish topic payload, .log line]

/-- The persisting part of `FetchTransactionByHash` (modes `1` and `3`): its
steps and the resulting `status`. -/
def FetchTransactionByHash.persist (env : Env) (tx : Tx) (receipt : Receipt)
    (sender : Address) : List Ev × Bool :=
  if env.EtteMode = "1" ∨ env.EtteMode = "3" then
    if !env.StoreTransaction tx receipt sender then
      ([.storeTransaction tx receipt sender], false)
    else
      ([.storeTransaction tx receipt sender, .storeEvents receipt], env.StoreEvents receipt)
  else ([], true)

/-- The publishing part of `FetchTransactionByHash` (modes `2` and `3`). -/
def FetchTransactionByHash.publish (env : Env) (tx : Tx) (receipt : Receipt)
    (sender : Address) : List Ev :=
  if env.EtteMode = "2" ∨ env.EtteMode = "3" then
    publishOrLog env "transaction" (.transaction (publishTx tx receipt sender))
        "[!] Failed to publish transaction from block"
      ++ receipt.Logs.flatMap fun v =>
        publishOrLog env "event" (.event (publishEvent v))
          "[!] Failed to publish event from block"
  else []

/-- Function `FetchTransactionByHash` of `transaction.go`; the status sent on
`returnValChan` is the `sendStatus` step that ends the trace. -/
def FetchTransactionByHash (env : Env) (block : Block) (tx : Tx) (publishable : Bool) :
    List Ev :=
  match env.TransactionReceipt tx.Hash with
  | none =>
    [.transactionReceipt tx.Hash, .log "[!] Failed to fetch tx receipt", .sendStatus false]
  | some receipt =>
    match env.TransactionSender tx block.Hash receipt.TransactionIndex with
    | none =>
      [.transactionReceipt tx.Hash, .transactionSender tx.Hash,
        .log "[!] Failed to fetch tx sender", .sendStatus false]
    | some sender =>
      let stored := FetchTransactionByHash.persist env tx receipt sender
      if !publishable then
        [.transactionReceipt tx.Hash, .transactionSender tx.Hash] ++ stored.1
          ++ [.sendStatus stored.2]
      else
        [.transactionReceipt tx.Hash, .transactionSender tx.Hash] ++ stored.1
          ++ FetchTransactionByHash.publish env tx receipt sender
          ++ [.sendStatus stored.2]

/-- The statuses a trace sends on `returnValChan`, in order. -/
def reported (t : List Ev) : List Bool :=
  t.filterMap fun e => match e with
    | .sendStatus b => some b
    | _ => none

end TransactionGo

/-! ## `app/block/fetch.go` -/

namespace FetchGo

/-- The answers of the lock manager, the node and the content processor to the
calls of `FetchBlockByHash` and `FetchBlockByNumber`. -/
structure Env where
  /-- Answer `lock.Acquire` for a block number and a channel. -/
  Acquire : Nat → Chan → Bool
  /-- The verdict the lock manager sends on a channel (`true` is go). -/
  Verdict : Chan → Bool
  /-- Answer `client.BlockByHash`; `none` is an error. -/
  BlockByHash : Hash → Option Block
  /-- Answer `client.BlockByNumber`; `none` is an error. -/
  BlockByNumber : Nat → Option Block
  /-- Answer `ProcessBlockContent` for a block and the `publishable` flag. -/
  ProcessBlockContent : Block → Bool → Bool

/-- Library `strconv.ParseUint(s, 10, 64)`: a non-empty string of decimal
digits whose value fits 64 bits; `none` is an error. -/
def ParseUint (s : GoString) : Option Nat :=
  if s = [] then none
  else s.foldlM (fun n c =>
    if 48 ≤ c ∧ c ≤ 57 then
      if n * 10 + (c - 48) < 2 ^ 64 then some (n * 10 + (c - 48)) else none
    else none) 0

/-- The steps from `lock.Acquire` to the point where the lock is held, and
whether it is (`false` is the early `return` on a no-go verdict). -/
def acquireOrWait (env : Env) (comm : Chan) (number : Nat) (text : GoString) : List Ev × Bool :=
  if !env.Acquire number comm then
    if !env.Verdict comm then
      ([.acquire number comm, .log "[!] Failed to acquire lock for processing block, waiting",
        .awaitVerdict comm, .pushRetry text,
        .log "[!] Failed to acquire lock for processing block"], false)
    else
      ([.acquire number comm, .log "[!] Failed to acquire lock for processing block, waiting",
        .awaitVerdict comm], true)
  else ([.acquire number comm], true)

/-- Function `FetchBlockByHash`; `comm` is the channel `make(chan bool)`
returns. The deferred `lock.Release(comm)` runs when the function returns. -/
def FetchBlockByHash (env : Env) (comm : Chan) (hash : Hash) (number : GoString) : List Ev :=
  match ParseUint number with
  | none => [.log "[!] Failed to parse block number"]
  | some _number =>
    match acquireOrWait env comm _number number with
    | (steps, false) => steps
    | (steps, true) =>
      match env.BlockByHash hash with
      | none =>
        steps ++ [.blockByHash hash, .pushRetry number,
          .log "[!] Failed to fetch block by hash"] ++ [.release comm]
      | some block =>
        steps ++ [.blockByHash hash, .processBlockContent block true] ++ [.release comm]

/-- Function `FetchBlockByNumber`; `comm` is the channel `make(chan bool)`
returns. The deferred `lock.Release(comm)` runs when the function returns. -/
def FetchBlockByNumber (env : Env) (comm : Chan) (number : Nat) (publishable : Bool) :
    List Ev :=
  match acquireOrWait env comm number (decimal number) with
  | (steps, false) => steps
  | (steps, true) =>
    match env.BlockByNumber number with
    | none =>
      steps ++ [.blockByNumber number, .pushRetry (decimal number),
        .log "[!] Failed to fetch block by number"] ++ [.release comm]
    | some block =>
      if env.ProcessBlockContent block publishable then
        steps ++ [.blockByNumber number, .processBlockContent block publishable,
          .removeAttemptCount (decimal number)] ++ [.release comm]
      else
        steps ++ [.blockByNumber number, .processBlockContent block publishable]
          ++ [.release comm]

/-- Function `FetchTransactionByHash` of `fetch.go`: the steps of one tx
worker and the value it sends on `returnValChan` (`none` is nil). -/
def FetchTransactionByHash (env : Ette.Env) (block : Block) (tx : Tx) :
    List Ev × Option PackedTransaction :=
  match env.TransactionReceipt tx.Hash with
  | none =>
    ([.transactionReceipt tx.Hash, .log "[!] Failed to fetch tx receipt", .sendPacked none],
      none)
  | some receipt =>
    match env.TransactionSender tx block.Hash receipt.TransactionIndex with
    | none =>
      ([.transactionReceipt tx.Hash, .transactionSender tx.Hash,
        .log "[!] Failed to fetch tx sender", .sendPacked none], none)
    | some sender =>
      ([.transactionReceipt tx.Hash, .transactionSender tx.Hash,
        .sendPacked (some (BuildPackedTx tx sender receipt))],
        some (BuildPackedTx tx sender receipt))

/-- The channels a trace hands to `lock.Release`, in order. -/
def releases (t : List Ev) : List Chan :=
  t.filterMap fun e => match e with
    | .release c => some c
    | _ => none

/-- The channels a trace hands to `lock.Acquire`, in order. -/
def acquires (t : List Ev) : List Chan :=
  t.filterMap fun e => match e with
    | .acquire _ c => some c
    | _ => none

/-- The attempt-count entries a trace removes, in order. -/
def removals (t : List Ev) : List GoString :=
  t.filterMap fun e => match e with
    | .removeAttemptCount s => some s
    | _ => none

/-- Whether a trace calls the node client. -/
def callsNode (t : List Ev) : Bool :=
  t.any fun e => match e with
    | .blockByHash _ => true
    | .blockByNumber _ => true
    | .transactionReceipt _ => true
    | .transactionSender _ => true
    | _ => false

/-- Whether a trace calls `ProcessBlockContent`. -/
def callsProcess (t : List Ev) : Bool :=
  t.any fun e => match e with
    | .processBlockContent _ _ => true
    | _ => false

/-- Whether the caller comes to hold the lock: `Acquire` returned true, or the
waiter received go. -/
def obtained (env : Env) (comm : Chan) (number : Nat) : Bool :=
  env.Acquire number comm || env.Verdict comm

end FetchGo

/-! ## `app/pubsub/transaction.go` -/

namespace Pubsub

/-- The local struct `transaction` of `Send`: the fields `json.Unmarshal`
fills from the payload, a missing key leaving the zero value. -/
structure WireTransaction where
  Hash : GoString := []
  From : GoString := []
  To : GoString := []
  Contract : GoString := []
  Value : GoString := []
  Data : GoString := []
  Gas : Nat := 0
  GasPrice : GoString := []
  Cost : GoString := []
  Nonce : Nat := 0
  State : Nat := 0
  BlockHash : GoString := []
deriving DecidableEq, Repr

/-- A payload received on the topic: its length in bytes and what
`json.Unmarshal` makes of it (`none` is an error). -/
structure Message where
  size : Nat
  object : Option WireTransaction
deriving DecidableEq, Repr

/-- Constant `hextable` of `encoding/hex`: the bytes of `"0123456789abcdef"`. -/
def hextable : GoString :=
  [48, 49, 50, 51, 52, 53, 54, 55, 56, 57, 97, 98, 99, 100, 101, 102]

/-- Library `hex.EncodeToString`: two digits per byte, `hextable[v>>4]` and
`hextable[v&0x0f]`. -/
def EncodeToString (src : List Nat) : GoString :=
  src.flatMap fun v => [hextable.getD (v / 16) 0, hextable.getD (v % 16) 0]

/-- Value of one hex digit (`reverseHexTable` of `encoding/hex`); `none` for a
byte that is no hex digit. -/
def fromHexChar (c : Nat) : Option Nat :=
  if 48 ≤ c ∧ c ≤ 57 then some (c - 48)
  else if 97 ≤ c ∧ c ≤ 102 then some (c - 97 + 10)
  else if 65 ≤ c ∧ c ≤ 70 then some (c - 65 + 10)
  else none

/-- Library `hex.DecodeString`; `none` is an error (a byte that is no hex
digit, or an odd length). -/
def DecodeString : GoString → Option (List Nat)
  | [] => some []
  | [_] => none
  | p :: q :: rest =>
    match fromHexChar p, fromHexChar q with
    | some a, some b => (DecodeString rest).map fun t => (a * 16 + b) :: t
    | _, _ => none

/-- Library `strings.HasPrefix`. -/
def HasPrefix (s start : GoString) : Bool := start.isPrefixOf s

/-- Modelled from the spec: the JSON encoder of `d.Transaction`, which Redis
calls on publication, lives in `app/data`, which is not among the sources. The
payload carries the keys `hash, from, to, contract, value, data, gas,
gasPrice, cost, nonce, state, blockHash`, with `data` as hex with `0x` prefix
or the empty string (spec 6). -/
def MarshalBinary (t : Data.Transaction) : WireTransaction :=
  { Hash := t.Hash
    From := t.From
    To := t.To
    Contract := t.Contract
    Value := t.Value
    Data := if t.Data = [] then [] else zeroX ++ EncodeToString t.Data
    Gas := t.Gas
    GasPrice := t.GasPrice
    Cost := t.Cost
    Nonce := t.Nonce
    State := t.State
    BlockHash := t.BlockHash }

/-- What `Send` makes of the decoded payload. -/
inductive Rebuilt where
  /-- The record `tx` it builds. -/
  | tx (t : Data.Transaction)
  /-- An error of `hex.DecodeString`. -/
  | undecodable
  /-- A slice expression out of range. -/
  | panicked
deriving DecidableEq, Repr

/-- The record `tx` that `Send` builds from the decoded payload and the data
bytes. -/
def Send.build (transaction : WireTransaction) (data : List Nat) : Data.Transaction :=
  if !HasPrefix transaction.Contract zeroX then
    { Hash := transaction.Hash
      From := transaction.From
      To := transaction.To
      Value := transaction.Value
      Data := data
      Gas := transaction.Gas
      GasPrice := transaction.GasPrice
      Cost := transaction.Cost
      Nonce := transaction.Nonce
      State := transaction.State
      BlockHash := transaction.BlockHash }
  else
    { Hash := transaction.Hash
      From := transaction.From
      Contract := transaction.Contract
      Value := transaction.Value
      Data := data
      Gas := transaction.Gas
      GasPrice := transaction.GasPrice
      Cost := transaction.Cost
      Nonce := transaction.Nonce
      State := transaction.State
      BlockHash := transaction.BlockHash }

/-- The part of `Send` between `json.Unmarshal` and the subscription filter:
decode the `data` field, `transaction.Data[2:]` when it is not empty, and
build `tx`. -/
def Send.rebuild (transaction : WireTransaction) : Rebuilt :=
  if transaction.Data.length ≠ 0 then
    if transaction.Data.length < 2 then .panicked
    else
      match DecodeString (transaction.Data.drop 2) with
      | none => .undecodable
      | some data => .tx (Send.build transaction data)
  else .tx (Send.build transaction [])

/-- A user row, by the field `Send` reads. -/
structure User where
  Enabled : Bool
deriving DecidableEq, Repr

/-- The answers of the database, the subscription and the connection to the
calls of `Send`. -/
structure Env where
  /-- Answer `db.GetUserFromAPIKey`; `none` is nil. -/
  GetUserFromAPIKey : Option User
  /-- Answer `db.IsUnderRateLimit`. -/
  IsUnderRateLimit : Bool
  /-- Answer `t.Request.DoesMatchWithPublishedTransactionData`. -/
  DoesMatch : Data.Transaction → Bool
  /-- Whether `t.Connection.WriteJSON` returns nil. -/
  WriteJSON : Bool
  /-- Whether `t.PubSub.Unsubscribe` returns nil. -/
  Unsubscribe : Bool
  /-- Whether `t.Connection.Close` returns nil. -/
  Close : Bool

/-- One observable step of the consumer. -/
inductive Out where
  /-- A `SubscriptionResponse` written to the client. -/
  | response (code : Nat) (message : String)
  /-- The decoded payload written to the client. -/
  | data (transaction : WireTransaction)
  /-- Call `t.PubSub.Unsubscribe`. -/
  | unsubscribe
  /-- Call `t.Connection.Close`. -/
  | close
  /-- Call `db.PutDataDeliveryInfo` with the payload length. -/
  | putDataDeliveryInfo (size : Nat)
  /-- A line written with `log.Printf`. -/
  | log (line : String)
deriving DecidableEq, Repr

/-- The call `t.PubSub.Unsubscribe` with its error branch. -/
def unsubscribe (env : Env) : List Out :=
  if env.Unsubscribe then [.unsubscribe]
  else [.unsubscribe, .log "[!] Failed to unsubscribe from transaction topic"]

/-- The rejection shared by the three admission checks of `Send`: a response
with code 0, then the unsubscription. -/
def reject (env : Env) (message : String) (line : String) : List Out :=
  (if env.WriteJSON then [Out.response 0 message]
    else [Out.response 0 message, Out.log line]) ++ unsubscribe env

/-- Function `SendData`, for the decoded payload. -/
def SendData (env : Env) (transaction : WireTransaction) : List Out × Bool :=
  if env.WriteJSON then
    ([.data transaction, .log "[!] Delivered transaction data to client"], true)
  else
    ([Out.data transaction, Out.log "[!] Failed to deliver transaction data to client"]
      ++ unsubscribe env
      ++ (if env.Close then [Out.close]
          else [Out.close, Out.log "[!] Failed to close websocket connection"]), false)

/-- Function `TransactionConsumer.Send`: its steps and the value it returns,
`none` when it panics. -/
def Send (env : Env) (msg : Message) : List Out × Option Bool :=
  match env.GetUserFromAPIKey with
  | none =>
    (reject env "Bad API Key" "[!] Failed to deliver bad API key message to client", some false)
  | some user =>
    if !user.Enabled then
      (reject env "Bad API Key" "[!] Failed to deliver bad API key message to client",
        some false)
    else if !env.IsUnderRateLimit then
      (reject env "Crossed Allowed Rate Limit"
        "[!] Failed to deliver rate limit crossed message to client", some false)
    else
      match msg.object with
      | none => ([.log "[!] Failed to decode published transaction data to JSON"], some true)
      | some transaction =>
        match Send.rebuild transaction with
        | .panicked => ([], none)
        | .undecodable => ([.log "[!] Failed to decode data field of transaction"], some true)
        | .tx tx =>
          if !env.DoesMatch tx then ([], some true)
          else
            match SendData env transaction with
            | (steps, true) => (steps ++ [.putDataDeliveryInfo msg.size], some true)
            | (steps, false) => (steps, some false)

end Pubsub

/-! ## Reading traces -/

/-- Whether a step is a write to the Store. -/
def isStore : Ev → Bool
  | .storeBlock _ => true
  | .storeTransaction _ _ _ => true
  | .storeEvents _ => true
  | _ => false

/-- Whether a step is a publication on the Bus. -/
def isPublish : Ev → Bool
  | .publish _ _ => true
  | _ => false

/-- The Store writes of a trace, in order. -/
def storeSteps (t : List Ev) : List Ev := t.filter isStore

/-- The publications of a trace, in order. -/
def publishSteps (t : List Ev) : List Ev := t.filter isPublish

/-- Every `p` step of the trace comes before every `q` step: from the first
`q` step on, no `p` step occurs. -/
def allBefore (p q : Ev → Bool) (t : List Ev) : Bool :=
  (t.dropWhile fun e => !q e).all fun e => !p e

/-- The jobs a trace hands to the worker pool, in order. -/
def submits (t : List Ev) : List Tx :=
  t.filterMap fun e => match e with
    | .submit tx _ => some tx
    | _ => none

/-! ## The gathered results -/

namespace BlockGo

/-- The state in which `FetchBlockContent` enters its drain loop: both
counters zero and `packedTxs` made with `block.Transactions().Len()` nil
entries. -/
def drainStart (block : Block) : DrainState :=
  { result := {}
    packedTxs := List.replicate block.Transactions.length none
    received := 0 }

/-- The slice `packedTxs` as the drain loop of `FetchBlockContent` leaves it,
for the values `results` delivered on `returnValChan`. -/
def gathered (block : Block) (results : List (Option PackedTransaction)) :
    List (Option PackedTransaction) :=
  (drainLoop block.Transactions.length results (drainStart block)).2.packedTxs

/-- What the tx workers of a block deliver on `returnValChan` when they
complete in the order `order` (positions in `block.Transactions()`): for each,
the value `FetchTransactionByHash` of `fetch.go` sends. -/
def deliveries (env : Env) (block : Block) (order : List (Fin block.Transactions.length)) :
    List (Option PackedTransaction) :=
  order.map fun i => (FetchGo.FetchTransactionByHash env block (block.Transactions.get i)).2

/-- The worker results in canonical block order: position `i` holds the result
for the `i`-th transaction of the block. -/
def blockOrder (env : Env) (block : Block) : List (Option PackedTransaction) :=
  block.Transactions.map fun tx => (FetchGo.FetchTransactionByHash env block tx).2

end BlockGo

/-! ## Sample values -/

/-- A transfer of block 7, with one log entry. -/
def sampleTx : Tx :=
  { Hash := ⟨[97, 49]⟩, To := some ⟨[98, 50]⟩, Value := 5, Data := [171, 205],
    Gas := 21000, GasPrice := 1, Cost := 21005, Nonce := 0 }

/-- A contract creation of block 7. -/
def sampleCreation : Tx :=
  { Hash := ⟨[97, 50]⟩, To := none, Value := 0, Data := [96, 128],
    Gas := 90000, GasPrice := 1, Cost := 90000, Nonce := 1 }

/-- The receipt of `sampleTx`. -/
def sampleReceipt : Receipt :=
  { Status := 1, ContractAddress := ⟨[48, 48]⟩, BlockHash := ⟨[99, 51]⟩, TransactionIndex := 0,
    Logs := [{ Address := ⟨[98, 50]⟩, Topics := [⟨[100, 52]⟩], Data := [1],
               TxHash := ⟨[97, 49]⟩, BlockHash := ⟨[99, 51]⟩, Index := 0 }] }

/-- Block 7, holding `sampleTx`. -/
def sampleBlock : Block :=
  { Hash := ⟨[99, 51]⟩, Number := 7, Time := 1600000000, ParentHash := ⟨[99, 50]⟩,
    Difficulty := 2, GasUsed := 21000, GasLimit := 8000000, Nonce := 0,
    Coinbase := ⟨[101, 53]⟩, Size := 600, TxHash := ⟨[102, 54]⟩, ReceiptHash := ⟨[102, 55]⟩,
    Transactions := [sampleTx] }

/-- A node that knows block 7, a Store and a Bus that accept everything, in
the given mode. -/
def sampleEnv (mode : String) : Env :=
  { EtteMode := mode
    BlockByHash := fun _ => some sampleBlock
    BlockByNumber := fun _ => some sampleBlock
    TransactionReceipt := fun _ => some sampleReceipt
    TransactionSender := fun _ _ _ => some ⟨[102, 48]⟩
    StoreBlock := fun _ => true
    StoreTransaction := fun _ _ _ => true
    StoreEvents := fun _ => true
    Publish := fun _ _ => true }

/-- What the one worker of block 7 delivers when it succeeds. -/
def sampleResults : List (Option PackedTransaction) :=
  [some (BuildPackedTx sampleTx ⟨[102, 48]⟩ sampleReceipt)]

/-- An environment of `fetch.go` in which block 7 is held by another worker
and every waiter gets the verdict `verdict`. -/
def busyEnv (verdict : Bool) : FetchGo.Env :=
  { Acquire := fun _ _ => false
    Verdict := fun _ => verdict
    BlockByHash := fun _ => some sampleBlock
    BlockByNumber := fun _ => some sampleBlock
    ProcessBlockContent := fun _ _ => true }

/-- An environment of `fetch.go` in which the lock is free and the node fails
every fetch. -/
def nodeDownEnv : FetchGo.Env :=
  { Acquire := fun _ _ => true
    Verdict := fun _ => true
    BlockByHash := fun _ => none
    BlockByNumber := fun _ => none
    ProcessBlockContent := fun _ _ => true }

/-- Block 8, holding `sampleTx` and then `sampleCreation`. -/
def twoTxBlock : Block :=
  { Hash := ⟨[99, 52]⟩, Number := 8, Time := 1600000015, ParentHash := ⟨[99, 51]⟩,
    Difficulty := 2, GasUsed := 111000, GasLimit := 8000000, Nonce := 0,
    Coinbase := ⟨[101, 53]⟩, Size := 900, TxHash := ⟨[102, 56]⟩, ReceiptHash := ⟨[102, 57]⟩,
    Transactions := [sampleTx, sampleCreation] }

/-- Block 9, without transactions. -/
def emptyBlock : Block :=
  { Hash := ⟨[99, 53]⟩, Number := 9, Time := 1600000030, ParentHash := ⟨[99, 52]⟩,
    Difficulty := 2, GasUsed := 0, GasLimit := 8000000, Nonce := 0,
    Coinbase := ⟨[101, 53]⟩, Size := 500, TxHash := ⟨[102, 58]⟩, ReceiptHash := ⟨[102, 59]⟩,
    Transactions := [] }

/-- A consumer whose user is enabled and under the rate limit, whose
subscription matches every transaction and whose connection works. -/
def admitEnv : Pubsub.Env :=
  { GetUserFromAPIKey := some { Enabled := true }
    IsUnderRateLimit := true
    DoesMatch := fun _ => true
    WriteJSON := true
    Unsubscribe := true
    Close := true }

/-- The payload `{"data":"a"}`: twelve bytes, a JSON object whose `data` is
the one-byte string `a`. -/
def oneByteData : Pubsub.Message :=
  { size := 12, object := some { Data := [97] } }

/-! ## Theorems -/

open BlockGo

theorem toInt_of_lt (x : Nat) (h : x < 2 ^ 63) : toInt x = (x : Int) := by
  unfold toInt
  have h1 : x % 2 ^ 64 = x := Nat.mod_eq_of_lt (by omega)
  rw [h1, if_pos h]

theorem drainLoop_returns (n : Nat) (hn : n < 2 ^ 63) :
    ∀ (rs : List (Option PackedTransaction)) (st : DrainState),
      rs ≠ [] → st.packedTxs.length = n →
      st.result.Success + st.result.Failure + rs.length = n →
      ∃ st', drainLoop n rs st = (Exit.returned, st') ∧
        st'.result.Failure = st.result.Failure + rs.count none ∧
        st'.result.Success + st'.result.Failure = n ∧
        st'.received = st.received + rs.length ∧
        st'.packedTxs.length = n := by
  intro rs
  induction rs with
  | nil => intro st h; exact absurd rfl h
  | cons v rest ih =>
    intro st _ hlen hsum
    simp only [List.length_cons] at hsum
    cases v with
    | none =>
      have hF : (st.result.Failure + 1) % 2 ^ 64 = st.result.Failure + 1 :=
        Nat.mod_eq_of_lt (by omega)
      have hT : (st.result.Success + (st.result.Failure + 1)) % 2 ^ 64
          = st.result.Success + st.result.Failure + 1 := by
        rw [Nat.mod_eq_of_lt (by omega)]; omega
      simp only [drainLoop, Option.isSome_none, Bool.false_eq_true, if_false,
        Data.ResultStatus.Total, hF, hT]
      rw [toInt_of_lt _ (by omega)]
      rw [if_pos (by constructor <;> omega)]
      cases rest with
      | nil =>
        simp only [List.length_nil] at hsum
        rw [if_pos (by omega)]
        refine ⟨_, rfl, ?_, ?_, ?_, ?_⟩
        · simp
        · simp only; omega
        · simp
        · simp [hlen]
      | cons w rest2 =>
        simp only [List.length_cons] at hsum
        rw [if_neg (by omega)]
        obtain ⟨st2, h1, h2, h3, h4, h5⟩ := ih
          { result := { st.result with Failure := st.result.Failure + 1 }
            packedTxs := st.packedTxs.set
              (((st.result.Success + st.result.Failure + 1 : Nat) : Int) - 1).toNat none
            received := st.received + 1 }
          (by simp) (by simp [hlen]) (by simp only [List.length_cons]; omega)
        refine ⟨st2, h1, ?_, h3, ?_, h5⟩
        · rw [h2]; simp only [List.count_cons_self]; omega
        · rw [h4]; simp only [List.length_cons]; omega
    | some p =>
      have hS : (st.result.Success + 1) % 2 ^ 64 = st.result.Success + 1 :=
        Nat.mod_eq_of_lt (by omega)
      have hT : (st.result.Success + 1 + st.result.Failure) % 2 ^ 64
          = st.result.Success + st.result.Failure + 1 := by
        rw [Nat.mod_eq_of_lt (by omega)]; omega
      simp only [drainLoop, Option.isSome_some, if_true,
        Data.ResultStatus.Total, hS, hT]
      rw [toInt_of_lt _ (by omega)]
      rw [if_pos (by constructor <;> omega)]
      cases rest with
      | nil =>
        simp only [List.length_nil] at hsum
        rw [if_pos (by omega)]
        refine ⟨_, rfl, ?_, ?_, ?_, ?_⟩
        · simp
        · simp only; omega
        · simp
        · simp [hlen]
      | cons w rest2 =>
        simp only [List.length_cons] at hsum
        rw [if_neg (by omega)]
        obtain ⟨st2, h1, h2, h3, h4, h5⟩ := ih
          { result := { st.result with Success := st.result.Success + 1 }
            packedTxs := st.packedTxs.set
              (((st.result.Success + st.result.Failure + 1 : Nat) : Int) - 1).toNat (some p)
            received := st.received + 1 }
          (by simp) (by simp [hlen]) (by simp only [List.length_cons]; omega)
        refine ⟨st2, h1, ?_, h3, ?_, h5⟩
        · rw [h2]; simp
        · rw [h4]; simp only [List.length_cons]; omega

theorem pushes_jobs (txs : List Tx) (publishable : Bool) :
    pushes (txs.map fun tx => Ev.submit tx publishable) = [] := by
  induction txs with
  | nil => rfl
  | cons t ts ih => simp [pushes]

theorem increments_jobs (txs : List Tx) (publishable : Bool) :
    increments (txs.map fun tx => Ev.submit tx publishable) = 0 := by
  induction txs with
  | nil => rfl
  | cons t ts ih => simpa [increments] using ih

/-- C1. For a block with `n ≥ 1` transactions and any `n` worker results,
`FetchBlockContent` returns; when some result is nil it pushes the decimal
block number to the retry queue exactly once (and nothing else) and does not
increment `blocks_processed`; when no result is nil it pushes nothing and
increments `blocks_processed` exactly once. -/
theorem FetchBlockContent_retry_or_progress (block : Block) (publishable : Bool)
    (results : List (Option PackedTransaction))
    (hn : 1 ≤ block.Transactions.length)
    (hint : block.Transactions.length < 2 ^ 63)
    (hlen : results.length = block.Transactions.length) :
    (FetchBlockContent block publishable results).exit = Exit.returned ∧
    (none ∈ results →
      pushes (FetchBlockContent block publishable results).trace = [decimal block.Number] ∧
      increments (FetchBlockContent block publishable results).trace = 0) ∧
    (none ∉ results →
      pushes (FetchBlockContent block publishable results).trace = [] ∧
      increments (FetchBlockContent block publishable results).trace = 1) := by
  have hne : results ≠ [] := by
    intro h; rw [h] at hlen; simp at hlen; omega
  obtain ⟨st, hrun, hF, -, -, -⟩ := drainLoop_returns block.Transactions.length hint results
    { result := {}, packedTxs := List.replicate block.Transactions.length none, received := 0 }
    hne (by simp) (by simp [hlen])
  have h0 : ¬ block.Transactions.length = 0 := by omega
  simp only [Nat.zero_add] at hF
  unfold FetchBlockContent
  rw [if_neg h0]
  simp only [hrun]
  by_cases hmem : none ∈ results
  · have hpos : st.result.Failure ≠ 0 := by
      rw [hF]; exact Nat.pos_iff_ne_zero.mp (List.count_pos_iff.mpr hmem)
    rw [if_neg hpos]
    refine ⟨rfl, fun _ => ⟨?_, ?_⟩, fun h => absurd hmem h⟩
    · simp only [pushes, List.filterMap_append]
      have := pushes_jobs block.Transactions publishable
      simp only [pushes] at this
      rw [this]; rfl
    · simp only [increments, List.count_append]
      have := increments_jobs block.Transactions publishable
      simp only [increments] at this
      rw [this]; rfl
  · have hz : st.result.Failure = 0 := by
      rw [hF]; exact List.count_eq_zero.mpr hmem
    rw [if_pos hz]
    refine ⟨rfl, fun h => absurd h hmem, fun _ => ⟨?_, ?_⟩⟩
    · simp only [pushes, List.filterMap_append]
      have := pushes_jobs block.Transactions publishable
      simp only [pushes] at this
      rw [this]; rfl
    · simp only [increments, List.count_append]
      have := increments_jobs block.Transactions publishable
      simp only [increments] at this
      rw [this]; rfl

/-- Witness for C1 on block 7: one worker, whose result is nil. -/
theorem FetchBlockContent_retry_or_progress_witness :
    pushes (FetchBlockContent sampleBlock true [none]).trace = [decimal 7] ∧
    increments (FetchBlockContent sampleBlock true [none]).trace = 0 :=
  (FetchBlockContent_retry_or_progress sampleBlock true [none]
    (by decide) (by decide) (by decide)).2.1 (by decide)

open TransactionGo in
theorem publishOrLog_shape (env : Env) (topic : String) (payload : Payload) (line : String) :
    ∀ e ∈ publishOrLog env topic payload line,
      e = Ev.publish topic payload ∨ e = Ev.log line := by
  intro e he
  unfold publishOrLog at he
  split at he
  · simp only [List.mem_singleton] at he
    exact Or.inl he
  · simpa only [List.mem_cons, List.mem_singleton, List.not_mem_nil, or_false] using he

open TransactionGo in
theorem publish_shape (env : Env) (tx : Tx) (receipt : Receipt) (sender : Address) :
    ∀ e ∈ FetchTransactionByHash.publish env tx receipt sender,
      e = Ev.publish "transaction" (.transaction (publishTx tx receipt sender)) ∨
      (∃ v ∈ receipt.Logs, e = Ev.publish "event" (.event (publishEvent v))) ∨
      (∃ line, e = Ev.log line) := by
  intro e he
  unfold FetchTransactionByHash.publish at he
  split at he
  · rw [List.mem_append] at he
    rcases he with h | h
    · rcases publishOrLog_shape _ _ _ _ e h with h | h
      · exact Or.inl h
      · exact Or.inr (Or.inr ⟨_, h⟩)
    · rw [List.mem_flatMap] at h
      obtain ⟨v, hv, hv2⟩ := h
      rcases publishOrLog_shape _ _ _ _ e hv2 with h | h
      · exact Or.inr (Or.inl ⟨v, hv, h⟩)
      · exact Or.inr (Or.inr ⟨_, h⟩)
  · simp at he

open TransactionGo in
theorem storeSteps_publish (env : Env) (tx : Tx) (receipt : Receipt) (sender : Address) :
    storeSteps (FetchTransactionByHash.publish env tx receipt sender) = [] := by
  unfold storeSteps
  rw [List.filter_eq_nil_iff]
  intro e he
  rcases publish_shape env tx receipt sender e he with h | ⟨v, -, h⟩ | ⟨l, h⟩ <;>
    subst h <;> simp [isStore]

open TransactionGo in
theorem reported_publish (env : Env) (tx : Tx) (receipt : Receipt) (sender : Address) :
    reported (FetchTransactionByHash.publish env tx receipt sender) = [] := by
  unfold reported
  rw [List.filterMap_eq_nil_iff]
  intro e he
  rcases publish_shape env tx receipt sender e he with h | ⟨v, -, h⟩ | ⟨l, h⟩ <;>
    subst h <;> rfl

open TransactionGo in
theorem storeSteps_persist (env : Env) (tx : Tx) (receipt : Receipt) (sender : Address) :
    storeSteps (FetchTransactionByHash.persist env tx receipt sender).1
      = (FetchTransactionByHash.persist env tx receipt sender).1 := by
  unfold FetchTransactionByHash.persist storeSteps
  split
  · split <;> simp [isStore]
  · simp

open TransactionGo in
theorem reported_persist (env : Env) (tx : Tx) (receipt : Receipt) (sender : Address) :
    reported (FetchTransactionByHash.persist env tx receipt sender).1 = [] := by
  unfold FetchTransactionByHash.persist reported
  split
  · split <;> simp
  · simp

open TransactionGo in
theorem storeSteps_FetchTransactionByHash (env : Env) (block : Block) (tx : Tx)
    (publishable : Bool) :
    storeSteps (FetchTransactionByHash env block tx publishable) =
      match env.TransactionReceipt tx.Hash with
      | none => []
      | some receipt =>
        match env.TransactionSender tx block.Hash receipt.TransactionIndex with
        | none => []
        | some sender => (FetchTransactionByHash.persist env tx receipt sender).1 := by
  unfold FetchTransactionByHash
  cases hr : env.TransactionReceipt tx.Hash with
  | none => simp [storeSteps, isStore]
  | some receipt =>
    cases hs : env.TransactionSender tx block.Hash receipt.TransactionIndex with
    | none => simp [storeSteps, isStore, hs]
    | some sender =>
      have h1 := storeSteps_persist env tx receipt sender
      have h2 := storeSteps_publish env tx receipt sender
      unfold storeSteps at h1 h2
      cases publishable <;> simp [storeSteps, isStore, List.filter_append, h1, h2, hs]

open TransactionGo in
theorem reported_FetchTransactionByHash (env : Env) (block : Block) (tx : Tx)
    (publishable : Bool) :
    reported (FetchTransactionByHash env block tx publishable) =
      match env.TransactionReceipt tx.Hash with
      | none => [false]
      | some receipt =>
        match env.TransactionSender tx block.Hash receipt.TransactionIndex with
        | none => [false]
        | some sender => [(FetchTransactionByHash.persist env tx receipt sender).2] := by
  unfold FetchTransactionByHash
  cases hr : env.TransactionReceipt tx.Hash with
  | none => simp [reported]
  | some receipt =>
    cases hs : env.TransactionSender tx block.Hash receipt.TransactionIndex with
    | none => simp [reported, hs]
    | some sender =>
      have h1 := reported_persist env tx receipt sender
      have h2 := reported_publish env tx receipt sender
      unfold reported at h1 h2
      cases publishable <;> simp [reported, List.filterMap_append, h1, h2, hs]

theorem mem_storeSteps (t : List Ev) (e : Ev) (h : isStore e = true) :
    e ∈ t ↔ e ∈ storeSteps t := by
  simp [storeSteps, List.mem_filter, h]

open TransactionGo in
/-- C2. In the persisting modes (`EtteMode` `1` and `3`), for every
transaction: once receipt and sender are fetched `FetchTransactionByHash`
calls `StoreTransaction`; a `StoreEvents` call occurs only directly after a
`StoreTransaction` call that returned true; when `StoreTransaction` returned
false there is no `StoreEvents` call and the reported status is false; when
it returned true the Store calls are `StoreTransaction` then `StoreEvents`
and the reported status is the result of `StoreEvents`. -/
theorem FetchTransactionByHash_events_after_transaction (env : Env) (block : Block) (tx : Tx)
    (publishable : Bool) (hmode : env.EtteMode = "1" ∨ env.EtteMode = "3") :
    (∀ rc s, env.TransactionReceipt tx.Hash = some rc →
      env.TransactionSender tx block.Hash rc.TransactionIndex = some s →
      Ev.storeTransaction tx rc s ∈ FetchTransactionByHash env block tx publishable) ∧
    (∀ r, Ev.storeEvents r ∈ FetchTransactionByHash env block tx publishable →
      ∃ rc s, storeSteps (FetchTransactionByHash env block tx publishable)
          = [Ev.storeTransaction tx rc s, Ev.storeEvents r] ∧
        env.StoreTransaction tx rc s = true) ∧
    (∀ tx' rc s, Ev.storeTransaction tx' rc s ∈ FetchTransactionByHash env block tx publishable →
      env.StoreTransaction tx' rc s = false →
      (∀ r, Ev.storeEvents r ∉ FetchTransactionByHash env block tx publishable) ∧
      reported (FetchTransactionByHash env block tx publishable) = [false]) ∧
    (∀ tx' rc s, Ev.storeTransaction tx' rc s ∈ FetchTransactionByHash env block tx publishable →
      env.StoreTransaction tx' rc s = true →
      storeSteps (FetchTransactionByHash env block tx publishable)
        = [Ev.storeTransaction tx' rc s, Ev.storeEvents rc] ∧
      reported (FetchTransactionByHash env block tx publishable) = [env.StoreEvents rc]) := by
  have hS := storeSteps_FetchTransactionByHash env block tx publishable
  have hR := reported_FetchTransactionByHash env block tx publishable
  refine ⟨?_, ?_, ?_, ?_⟩
  · intro rc s hrc hs
    rw [mem_storeSteps _ (Ev.storeTransaction tx rc s) rfl, hS]
    simp only [hrc, hs, FetchTransactionByHash.persist, hmode, if_true]
    split <;> simp
  · intro r hr
    rw [mem_storeSteps _ (Ev.storeEvents r) rfl, hS] at hr
    rw [hS]
    cases hrc : env.TransactionReceipt tx.Hash with
    | none => simp [hrc] at hr
    | some rc =>
      cases hs : env.TransactionSender tx block.Hash rc.TransactionIndex with
      | none => simp [hrc, hs] at hr
      | some s =>
        simp only [hrc, hs, FetchTransactionByHash.persist, hmode, if_true] at hr ⊢
        cases hst : env.StoreTransaction tx rc s with
        | false => simp [hst] at hr
        | true =>
          simp [hst] at hr
          exact ⟨rc, s, by simp [hst, hr], hst⟩
  · intro tx' rc s hm hfalse
    rw [mem_storeSteps _ (Ev.storeTransaction tx' rc s) rfl, hS] at hm
    cases hrc : env.TransactionReceipt tx.Hash with
    | none => simp [hrc] at hm
    | some rc0 =>
      cases hs : env.TransactionSender tx block.Hash rc0.TransactionIndex with
      | none => simp [hrc, hs] at hm
      | some s0 =>
        simp only [hrc, hs, FetchTransactionByHash.persist, hmode, if_true] at hm
        have key : tx' = tx ∧ rc = rc0 ∧ s = s0 := by
          split at hm <;> simpa using hm
        obtain ⟨h1, h2, h3⟩ := key
        subst h1 h2 h3
        constructor
        · intro r hr
          rw [mem_storeSteps _ (Ev.storeEvents r) rfl, hS] at hr
          simp [hrc, hs, FetchTransactionByHash.persist, hmode, hfalse] at hr
        · rw [hR]
          simp [hrc, hs, FetchTransactionByHash.persist, hmode, hfalse]
  · intro tx' rc s hm htrue
    rw [mem_storeSteps _ (Ev.storeTransaction tx' rc s) rfl, hS] at hm
    cases hrc : env.TransactionReceipt tx.Hash with
    | none => simp [hrc] at hm
    | some rc0 =>
      cases hs : env.TransactionSender tx block.Hash rc0.TransactionIndex with
      | none => simp [hrc, hs] at hm
      | some s0 =>
        simp only [hrc, hs, FetchTransactionByHash.persist, hmode, if_true] at hm
        have key : tx' = tx ∧ rc = rc0 ∧ s = s0 := by
          split at hm <;> simpa using hm
        obtain ⟨h1, h2, h3⟩ := key
        subst h1 h2 h3
        constructor
        · rw [hS]
          simp [hrc, hs, FetchTransactionByHash.persist, hmode, htrue]
        · rw [hR]
          simp [hrc, hs, FetchTransactionByHash.persist, hmode, htrue]

open TransactionGo in
/-- Witness for C2: `sampleTx` in mode `1`, with a Store that accepts. -/
theorem FetchTransactionByHash_events_after_transaction_witness :
    ((sampleEnv "1").EtteMode = "1" ∨ (sampleEnv "1").EtteMode = "3") ∧
    storeSteps (FetchTransactionByHash (sampleEnv "1") sampleBlock sampleTx true)
      = [Ev.storeTransaction sampleTx sampleReceipt ⟨[102, 48]⟩, Ev.storeEvents sampleReceipt] ∧
    reported (FetchTransactionByHash (sampleEnv "1") sampleBlock sampleTx true) = [true] :=
  have h := FetchTransactionByHash_events_after_transaction (sampleEnv "1") sampleBlock
    sampleTx true (Or.inl rfl)
  ⟨Or.inl rfl, h.2.2.2 sampleTx sampleReceipt ⟨[102, 48]⟩ (h.1 _ _ rfl rfl) rfl⟩

theorem pushes_publishBlock (env : Env) (block : Block) : pushes (publishBlock env block) = [] := by
  unfold publishBlock
  simp only []
  split <;> rfl

theorem switch_mode3 (env : Env) (block : Block) (number : GoString)
    (hmode : env.EtteMode = "3") :
    pushes (fetchBlockByHash.switch env block number).1
        = (if env.StoreBlock block then [] else [number]) ∧
      (fetchBlockByHash.switch env block number).2 = env.StoreBlock block := by
  have hp := pushes_publishBlock env block
  unfold pushes at hp
  unfold fetchBlockByHash.switch
  cases hst : env.StoreBlock block <;>
    simp [hmode, pushes, List.filterMap_append, hp]

open TransactionGo in
/-- C3. In persist+publish mode (`EtteMode` `3`), whatever the outcome `pub`
of every publication: the block stage of `fetchBlockByHash` pushes the block
number to the retry queue exactly when `StoreBlock` returns false (and then
returns without entering `FetchBlockContent`), and pushes nothing when
`StoreBlock` returns true; and the status `FetchTransactionByHash` reports is
the same under any two publication outcomes `pub` and `pub2`. -/
theorem retry_decision_ignores_publish (env : Env) (pub pub2 : String → Payload → Bool)
    (hash : Hash) (block : Block) (number : GoString) (tx : Tx) (publishable : Bool)
    (results : List (Option PackedTransaction))
    (hmode : env.EtteMode = "3") (hblock : env.BlockByHash hash = some block) :
    (number ∈ pushes (fetchBlockByHash.switch { env with Publish := pub } block number).1
      ↔ env.StoreBlock block = false) ∧
    (env.StoreBlock block = false →
      pushes (fetchBlockByHash { env with Publish := pub } hash number results).trace
        = [number]) ∧
    (env.StoreBlock block = true →
      pushes (fetchBlockByHash { env with Publish := pub } hash number results).trace
        = pushes (FetchBlockContent block true results).trace) ∧
    reported (FetchTransactionByHash { env with Publish := pub } block tx publishable)
      = reported (FetchTransactionByHash { env with Publish := pub2 } block tx publishable) := by
  obtain ⟨h1, h2⟩ := switch_mode3 { env with Publish := pub } block number hmode
  simp only [] at h1 h2
  refine ⟨?_, ?_, ?_, ?_⟩
  · rw [h1]
    cases env.StoreBlock block <;> simp
  · intro hst
    rw [hst] at h1 h2
    unfold fetchBlockByHash
    simp only [hblock]
    generalize fetchBlockByHash.switch { env with Publish := pub } block number = sw at h1 h2
    obtain ⟨steps, go⟩ := sw
    simp only at h1 h2
    subst h2
    simp only [pushes, List.filterMap_cons] at h1 ⊢
    simpa using h1
  · intro hst
    rw [hst] at h1 h2
    unfold fetchBlockByHash
    simp only [hblock]
    generalize fetchBlockByHash.switch { env with Publish := pub } block number = sw at h1 h2
    obtain ⟨steps, go⟩ := sw
    simp only at h1 h2
    subst h2
    simp only [pushes, List.filterMap_cons, List.cons_append, List.filterMap_append] at h1 ⊢
    simp [h1]
  · rw [reported_FetchTransactionByHash, reported_FetchTransactionByHash]
    rfl

open TransactionGo in
/-- Witness for C3: block 7 in mode `3`, with a Bus that fails every
publication against one that accepts them all. -/
theorem retry_decision_ignores_publish_witness :
    (sampleEnv "3").EtteMode = "3" ∧
    (sampleEnv "3").BlockByHash sampleBlock.Hash = some sampleBlock ∧
    (decimal 7 ∈ pushes (fetchBlockByHash.switch
        { sampleEnv "3" with Publish := fun _ _ => false } sampleBlock (decimal 7)).1
      ↔ (sampleEnv "3").StoreBlock sampleBlock = false) ∧
    reported (FetchTransactionByHash { sampleEnv "3" with Publish := fun _ _ => false }
        sampleBlock sampleTx true)
      = reported (FetchTransactionByHash { sampleEnv "3" with Publish := fun _ _ => true }
        sampleBlock sampleTx true) :=
  have h := retry_decision_ignores_publish (sampleEnv "3") (fun _ _ => false) (fun _ _ => true)
    sampleBlock.Hash sampleBlock (decimal 7) sampleTx true sampleResults rfl rfl
  ⟨rfl, rfl, h.1, h.2.2.2⟩

theorem allBefore_append (p q : Ev → Bool) (a b : List Ev)
    (ha : ∀ e ∈ a, q e = false) (hb : ∀ e ∈ b, p e = false) :
    allBefore p q (a ++ b) = true := by
  induction a with
  | nil =>
    simp only [allBefore, List.nil_append, List.all_eq_true]
    intro e he
    have hmem : e ∈ b := (List.dropWhile_suffix _).subset he
    simp [hb e hmem]
  | cons x xs ih =>
    have hx : q x = false := ha x (List.mem_cons_self _ _)
    have := ih (fun e he => ha e (List.mem_cons_of_mem _ he))
    simpa [allBefore, hx] using this

theorem publishBlock_shape (env : Env) (block : Block) :
    (∃ b, Ev.publish "block" (Payload.block b) ∈ publishBlock env block) ∧
    ∀ e ∈ publishBlock env block, isStore e = false := by
  unfold publishBlock
  simp only []
  split
  · exact ⟨⟨_, List.mem_singleton.mpr rfl⟩, fun e he => by
      simp only [List.mem_singleton] at he
      subst he; rfl⟩
  · exact ⟨⟨_, List.mem_cons_self _ _⟩, fun e he => by
      simp only [List.mem_cons, List.mem_singleton, List.not_mem_nil, or_false] at he
      rcases he with h | h <;> subst h <;> rfl⟩

open TransactionGo in
/-- C4 as the code has it. In persist+publish mode (`EtteMode` `3`) with a
publishable block, every Store call of `FetchTransactionByHash` comes before
every publication: once receipt and sender are fetched it calls
`StoreTransaction` (and `StoreEvents` when that returned true) and only then
publishes the transaction and each of its events. At the block stage
`fetchBlockByHash` has the opposite order: it publishes the block first and
only then calls `StoreBlock`. -/
theorem FetchTransactionByHash_persists_then_publishes (env : Env) (block : Block) (tx : Tx)
    (number : GoString) (hmode : env.EtteMode = "3") :
    allBefore isStore isPublish (FetchTransactionByHash env block tx true) = true ∧
    (∀ rc s, env.TransactionReceipt tx.Hash = some rc →
      env.TransactionSender tx block.Hash rc.TransactionIndex = some s →
      Ev.storeTransaction tx rc s ∈ FetchTransactionByHash env block tx true ∧
      (env.StoreTransaction tx rc s = true →
        Ev.storeEvents rc ∈ FetchTransactionByHash env block tx true) ∧
      Ev.publish "transaction" (.transaction (publishTx tx rc s))
        ∈ FetchTransactionByHash env block tx true ∧
      (∀ v ∈ rc.Logs, Ev.publish "event" (.event (publishEvent v))
        ∈ FetchTransactionByHash env block tx true)) ∧
    (allBefore isPublish isStore (fetchBlockByHash.switch env block number).1 = true ∧
      Ev.storeBlock block ∈ (fetchBlockByHash.switch env block number).1 ∧
      ∃ b, Ev.publish "block" (Payload.block b)
        ∈ (fetchBlockByHash.switch env block number).1) := by
  refine ⟨?_, ?_, ?_⟩
  · unfold FetchTransactionByHash
    cases hrc : env.TransactionReceipt tx.Hash with
    | none => simp [allBefore, isPublish, isStore]
    | some rc =>
      cases hs : env.TransactionSender tx block.Hash rc.TransactionIndex with
      | none => simp [hs, allBefore, isPublish, isStore]
      | some s =>
        simp only [hs, Bool.not_true, Bool.false_eq_true, if_false, List.append_assoc]
        rw [← List.append_assoc]
        apply allBefore_append
        · intro e he
          rw [List.mem_append] at he
          rcases he with h | h
          · simp only [List.mem_cons, List.mem_singleton, List.not_mem_nil, or_false] at h
            rcases h with h | h <;> subst h <;> rfl
          · have : e ∈ storeSteps (FetchTransactionByHash.persist env tx rc s).1 := by
              rw [storeSteps_persist]; exact h
            have hst : isStore e = true := (List.mem_filter.mp this).2
            cases e <;> simp_all [isStore, isPublish]
        · intro e he
          rw [List.mem_append] at he
          rcases he with h | h
          · rcases publish_shape env tx rc s e h with h | ⟨v, -, h⟩ | ⟨l, h⟩ <;>
              subst h <;> rfl
          · simp only [List.mem_singleton] at h
            subst h; rfl
  · intro rc s hrc hs
    unfold FetchTransactionByHash
    simp only [hrc, hs, Bool.not_true, Bool.false_eq_true, if_false]
    refine ⟨?_, ?_, ?_, ?_⟩
    · simp [FetchTransactionByHash.persist, hmode]
      split <;> simp
    · intro hst
      simp [FetchTransactionByHash.persist, hmode, hst]
    · simp [FetchTransactionByHash.publish, hmode, publishOrLog]
      split <;> simp
    · intro v hv
      have hmem : Ev.publish "event" (.event (publishEvent v))
          ∈ FetchTransactionByHash.publish env tx rc s := by
        unfold FetchTransactionByHash.publish
        rw [if_pos (Or.inr hmode), List.mem_append, List.mem_flatMap]
        refine Or.inr ⟨v, hv, ?_⟩
        unfold publishOrLog
        split <;> simp
      simp [hmem]
  · obtain ⟨⟨b, hb⟩, hns⟩ := publishBlock_shape env block
    have h1 : env.EtteMode ≠ "1" := by rw [hmode]; decide
    have h2 : env.EtteMode ≠ "2" := by rw [hmode]; decide
    unfold fetchBlockByHash.switch
    rw [if_neg h1, if_neg h2, if_pos hmode]
    cases env.StoreBlock block
    · refine ⟨?_, ?_, b, ?_⟩
      · apply allBefore_append _ _ _ _ hns
        intro e he
        simp only [List.mem_cons, List.mem_singleton, List.not_mem_nil, or_false] at he
        rcases he with h | h <;> subst h <;> rfl
      · simp
      · simp [hb]
    · refine ⟨?_, ?_, b, ?_⟩
      · apply allBefore_append _ _ _ _ hns
        intro e he
        simp only [List.mem_singleton] at he
        subst he; rfl
      · simp
      · simp [hb]

open TransactionGo in
/-- Counterexample to C4 as stated: for `sampleTx` in mode `3`, publishable,
`StoreTransaction` and `StoreEvents` are called before anything is
published, so the publications do not come first. -/
theorem FetchTransactionByHash_publish_first_fails :
    (sampleEnv "3").EtteMode = "3" ∧
    FetchTransactionByHash (sampleEnv "3") sampleBlock sampleTx true =
      [Ev.transactionReceipt sampleTx.Hash,
       Ev.transactionSender sampleTx.Hash,
       Ev.storeTransaction sampleTx sampleReceipt ⟨[102, 48]⟩,
       Ev.storeEvents sampleReceipt,
       Ev.publish "transaction" (.transaction (publishTx sampleTx sampleReceipt ⟨[102, 48]⟩)),
       Ev.publish "event" (.event (publishEvent
         { Address := ⟨[98, 50]⟩, Topics := [⟨[100, 52]⟩], Data := [1],
           TxHash := ⟨[97, 49]⟩, BlockHash := ⟨[99, 51]⟩, Index := 0 })),
       Ev.sendStatus true] ∧
    allBefore isPublish isStore
      (FetchTransactionByHash (sampleEnv "3") sampleBlock sampleTx true) = false := by
  refine ⟨rfl, ?_, ?_⟩ <;> decide

open TransactionGo in
/-- Witness for C4 as the code has it: `sampleTx` and block 7 in mode `3`. -/
theorem FetchTransactionByHash_persists_then_publishes_witness :
    (sampleEnv "3").EtteMode = "3" ∧
    allBefore isStore isPublish
      (FetchTransactionByHash (sampleEnv "3") sampleBlock sampleTx true) = true ∧
    allBefore isPublish isStore
      (fetchBlockByHash.switch (sampleEnv "3") sampleBlock (decimal 7)).1 = true ∧
    Ev.storeBlock sampleBlock
      ∈ (fetchBlockByHash.switch (sampleEnv "3") sampleBlock (decimal 7)).1 :=
  have h := FetchTransactionByHash_persists_then_publishes (sampleEnv "3") sampleBlock sampleTx
    (decimal 7) rfl
  ⟨rfl, h.1, h.2.2.1, h.2.2.2.1⟩

theorem storeSteps_jobs (txs : List Tx) (publishable : Bool) :
    storeSteps (txs.map fun tx => Ev.submit tx publishable) = [] := by
  induction txs with
  | nil => rfl
  | cons t ts ih => simp [storeSteps, isStore]

theorem storeSteps_FetchBlockContent (block : Block) (publishable : Bool)
    (results : List (Option PackedTransaction)) :
    storeSteps (FetchBlockContent block publishable results).trace = [] := by
  have hj := storeSteps_jobs block.Transactions publishable
  unfold storeSteps at hj
  unfold FetchBlockContent
  split
  · rfl
  · simp only []
    split
    · split <;> simp [storeSteps, List.filter_append, hj, isStore]
    · simp [storeSteps, hj]

theorem storeSteps_publishBlock (env : Env) (block : Block) :
    storeSteps (publishBlock env block) = [] := by
  unfold publishBlock
  simp only []
  split <;> rfl

/-- In publish-only mode the by-hash path makes no Store write. -/
theorem fetchBlockByHash_publish_only (env : Env) (hash : Hash) (number : GoString)
    (results : List (Option PackedTransaction)) (hmode : env.EtteMode = "2") :
    storeSteps (fetchBlockByHash env hash number results).trace = [] := by
  have hc : ∀ b, storeSteps (FetchBlockContent b true results).trace = [] :=
    fun b => storeSteps_FetchBlockContent b true results
  have hp : ∀ b, storeSteps (publishBlock env b) = [] := storeSteps_publishBlock env
  unfold storeSteps at hc hp
  unfold fetchBlockByHash
  cases env.BlockByHash hash with
  | none => rfl
  | some block =>
    simp [fetchBlockByHash.switch, hmode, storeSteps, List.filter_append, hc, hp, isStore]

open TransactionGo in
/-- In publish-only mode `FetchTransactionByHash` makes no Store write. -/
theorem FetchTransactionByHash_publish_only (env : Env) (block : Block) (tx : Tx)
    (publishable : Bool) (hmode : env.EtteMode = "2") :
    storeSteps (FetchTransactionByHash env block tx publishable) = [] := by
  rw [storeSteps_FetchTransactionByHash]
  cases hrc : env.TransactionReceipt tx.Hash with
  | none => rfl
  | some rc =>
    cases hs : env.TransactionSender tx block.Hash rc.TransactionIndex with
    | none => simp [hs]
    | some s => simp [hs, FetchTransactionByHash.persist, hmode]

/-- The by-number path calls `StoreBlock` on every fetched block, whatever the
mode. -/
theorem fetchBlockByNumber_stores (env : Env) (number : Nat) (block : Block)
    (results : List (Option PackedTransaction)) (h : env.BlockByNumber number = some block) :
    storeSteps (fetchBlockByNumber env number results).trace = [Ev.storeBlock block] := by
  have hc := storeSteps_FetchBlockContent block false results
  unfold storeSteps at hc
  unfold fetchBlockByNumber
  simp only [h]
  split <;> simp [storeSteps, List.filter_append, hc, isStore]

/-- C5. The code at the failing input: in publish-only mode (`EtteMode` `2`)
`fetchBlockByNumber` on block 7 writes the block to the Store, while
`fetchBlockByHash` on the same block makes no Store write. -/
theorem fetchBlockByNumber_stores_in_publish_only :
    (sampleEnv "2").EtteMode = "2" ∧
    storeSteps (fetchBlockByNumber (sampleEnv "2") 7 sampleResults).trace
      = [Ev.storeBlock sampleBlock] ∧
    storeSteps (fetchBlockByHash (sampleEnv "2") sampleBlock.Hash (decimal 7)
      sampleResults).trace = [] := by
  refine ⟨rfl, ?_, ?_⟩ <;> decide

open TransactionGo in
theorem mem_FetchTransactionByHash_publish (env : Env) (block : Block) (tx : Tx)
    (publishable : Bool) (topic : String) (p : Payload)
    (h : Ev.publish topic p ∈ FetchTransactionByHash env block tx publishable) :
    ∃ rc s, env.TransactionReceipt tx.Hash = some rc ∧
      env.TransactionSender tx block.Hash rc.TransactionIndex = some s ∧
      Ev.publish topic p ∈ FetchTransactionByHash.publish env tx rc s := by
  unfold FetchTransactionByHash at h
  cases hrc : env.TransactionReceipt tx.Hash with
  | none => simp [hrc] at h
  | some rc =>
    cases hs : env.TransactionSender tx block.Hash rc.TransactionIndex with
    | none => simp [hrc, hs] at h
    | some s =>
      refine ⟨rc, s, rfl, hs, ?_⟩
      have hne : Ev.publish topic p ∉ (FetchTransactionByHash.persist env tx rc s).1 := by
        intro hm
        have : Ev.publish topic p ∈ storeSteps (FetchTransactionByHash.persist env tx rc s).1 := by
          rw [storeSteps_persist]; exact hm
        have := (List.mem_filter.mp this).2
        simp [isStore] at this
      simp only [hrc, hs] at h
      split at h
      · simp [hne] at h
      · simpa [hne] using h

open TransactionGo in
/-- C6. Every record `FetchTransactionByHash` publishes on topic
`transaction` has exactly one of `To` and `Contract` non-empty: when the
transaction has no recipient, `Contract` is the receipt's contract address
and `To` is empty; otherwise `To` is the recipient and `Contract` is empty. -/
theorem published_transaction_to_xor_contract (env : Env) (block : Block) (tx : Tx)
    (publishable : Bool) (p : Payload)
    (h : Ev.publish "transaction" p ∈ FetchTransactionByHash env block tx publishable) :
    ∃ r rc, p = Payload.transaction r ∧ env.TransactionReceipt tx.Hash = some rc ∧
      (tx.To = none → r.To = [] ∧ r.Contract = rc.ContractAddress.Hex ∧ r.Contract ≠ []) ∧
      (∀ a, tx.To = some a → r.To = a.Hex ∧ r.To ≠ [] ∧ r.Contract = []) ∧
      ((r.To ≠ [] ∧ r.Contract = []) ∨ (r.To = [] ∧ r.Contract ≠ [])) := by
  obtain ⟨rc, s, hrc, -, hm⟩ := mem_FetchTransactionByHash_publish env block tx publishable _ _ h
  rcases publish_shape env tx rc s _ hm with h1 | ⟨v, -, h1⟩ | ⟨l, h1⟩
  · refine ⟨publishTx tx rc s, rc, ?_, hrc, ?_, ?_, ?_⟩
    · simpa using h1
    · intro hto
      simp [publishTx, hto, Address.Hex, zeroX]
    · intro a hto
      simp [publishTx, hto, Address.Hex, zeroX]
    · cases hto : tx.To <;> simp [publishTx, hto, Address.Hex, zeroX]
  · simp at h1
  · simp at h1


open TransactionGo in
/-- Witness for C6: the contract creation `sampleCreation` in mode `2`. -/
theorem published_transaction_to_xor_contract_witness :
    Ev.publish "transaction"
        (.transaction (publishTx sampleCreation sampleReceipt ⟨[102, 48]⟩))
      ∈ FetchTransactionByHash (sampleEnv "2") sampleBlock sampleCreation true ∧
    ∃ r rc, Payload.transaction (publishTx sampleCreation sampleReceipt ⟨[102, 48]⟩)
        = Payload.transaction r ∧
      (sampleEnv "2").TransactionReceipt sampleCreation.Hash = some rc ∧
      (sampleCreation.To = none →
        r.To = [] ∧ r.Contract = rc.ContractAddress.Hex ∧ r.Contract ≠ []) ∧
      (∀ a, sampleCreation.To = some a → r.To = a.Hex ∧ r.To ≠ [] ∧ r.Contract = []) ∧
      ((r.To ≠ [] ∧ r.Contract = []) ∨ (r.To = [] ∧ r.Contract ≠ [])) :=
  ⟨by decide, published_transaction_to_xor_contract (sampleEnv "2") sampleBlock sampleCreation
    true _ (by decide)⟩

open Pubsub in
theorem fromHexChar_hextable : ∀ d, d < 16 → fromHexChar (hextable.getD d 0) = some d := by
  decide

open Pubsub in
theorem EncodeToString_cons (b : Nat) (rest : List Nat) :
    EncodeToString (b :: rest)
      = hextable.getD (b / 16) 0 :: hextable.getD (b % 16) 0 :: EncodeToString rest := by
  simp [EncodeToString, List.flatMap_cons]

open Pubsub in
theorem DecodeString_EncodeToString (bs : List Nat) (h : ∀ b ∈ bs, b < 256) :
    DecodeString (EncodeToString bs) = some bs := by
  induction bs with
  | nil => rfl
  | cons b rest ih =>
    have hb : b < 256 := h b (List.mem_cons_self _ _)
    have hrest := ih (fun x hx => h x (List.mem_cons_of_mem _ hx))
    have h1 := fromHexChar_hextable (b / 16) (by omega)
    have h2 := fromHexChar_hextable (b % 16) (by omega)
    have hval : b / 16 * 16 + b % 16 = b := by omega
    rw [EncodeToString_cons, DecodeString]
    simp only [h1, h2, hrest, Option.map_some', hval]

open Pubsub in
/-- C7. For every published transaction record whose data bytes are bytes and
where exactly one of `To` and `Contract` is set, to a string starting with
`0x`, the other being empty: the record `Send` rebuilds from the payload
(data as `0x`-prefixed hex, or empty for no data) is the published record,
field for field. -/
theorem Send_rebuilds_published_record (t : Data.Transaction)
    (hbytes : ∀ b ∈ t.Data, b < 256)
    (hone : (HasPrefix t.To zeroX = true ∧ t.Contract = []) ∨
      (t.To = [] ∧ HasPrefix t.Contract zeroX = true)) :
    Send.rebuild (MarshalBinary t) = Rebuilt.tx t := by
  have hbuild : Send.build (MarshalBinary t) t.Data = t := by
    obtain ⟨th, tf, tt, tc, tv, td, tg, tgp, tco, tn, ts, tb⟩ := t
    simp only at hone
    rcases hone with ⟨-, hc⟩ | ⟨hto, hc⟩
    · subst hc
      simp [Send.build, MarshalBinary, HasPrefix, zeroX]
    · subst hto
      simp only [HasPrefix] at hc
      simp [Send.build, MarshalBinary, HasPrefix, hc]
  by_cases hd : t.Data = []
  · have hw : (MarshalBinary t).Data = [] := by simp [MarshalBinary, hd]
    unfold Send.rebuild
    rw [hw]
    simp only [List.length_nil, ne_eq, not_true_eq_false, if_false]
    rw [← hd, hbuild]
  · have hw : (MarshalBinary t).Data = zeroX ++ EncodeToString t.Data := by
      simp [MarshalBinary, hd]
    unfold Send.rebuild
    rw [hw]
    simp only [zeroX, List.cons_append, List.nil_append, List.length_cons, List.drop_succ_cons,
      List.drop_zero, DecodeString_EncodeToString t.Data hbytes]
    rw [if_pos (by omega), if_neg (by omega), hbuild]

open Pubsub in
/-- Witness for C7: the record published for `sampleTx`. -/
theorem Send_rebuilds_published_record_witness :
    (∀ b ∈ (TransactionGo.publishTx sampleTx sampleReceipt ⟨[102, 48]⟩).Data, b < 256) ∧
    HasPrefix (TransactionGo.publishTx sampleTx sampleReceipt ⟨[102, 48]⟩).To zeroX = true ∧
    (TransactionGo.publishTx sampleTx sampleReceipt ⟨[102, 48]⟩).Contract = [] ∧
    (MarshalBinary (TransactionGo.publishTx sampleTx sampleReceipt ⟨[102, 48]⟩)).Data
      = [48, 120, 97, 98, 99, 100] ∧
    Send.rebuild (MarshalBinary (TransactionGo.publishTx sampleTx sampleReceipt ⟨[102, 48]⟩))
      = Rebuilt.tx (TransactionGo.publishTx sampleTx sampleReceipt ⟨[102, 48]⟩) :=
  ⟨by decide, by decide, by decide, by decide,
    Send_rebuilds_published_record (TransactionGo.publishTx sampleTx sampleReceipt ⟨[102, 48]⟩)
      (by decide) (Or.inl ⟨by decide, by decide⟩)⟩

open FetchGo in
/-- C8. In `FetchBlockByNumber` and in `FetchBlockByHash` (whose number hint
parses), when `Acquire` returns false and the verdict received on the request
channel is no-go, the block number is pushed to the retry queue exactly once
and the function returns without a node client call and without calling
`ProcessBlockContent`. -/
theorem no_go_pushes_once (env : FetchGo.Env) (comm : Chan) (number : Nat) (publishable : Bool)
    (hash : Hash) (hint : GoString)
    (hparse : ParseUint hint = some number)
    (hacquire : env.Acquire number comm = false) (hverdict : env.Verdict comm = false) :
    (pushes (FetchBlockByNumber env comm number publishable) = [decimal number] ∧
      callsNode (FetchBlockByNumber env comm number publishable) = false ∧
      callsProcess (FetchBlockByNumber env comm number publishable) = false) ∧
    (pushes (FetchBlockByHash env comm hash hint) = [hint] ∧
      callsNode (FetchBlockByHash env comm hash hint) = false ∧
      callsProcess (FetchBlockByHash env comm hash hint) = false) := by
  constructor
  · simp [FetchBlockByNumber, acquireOrWait, hacquire, hverdict, pushes, callsNode, callsProcess]
  · simp [FetchBlockByHash, hparse, acquireOrWait, hacquire, hverdict, pushes, callsNode,
      callsProcess]

open FetchGo in
/-- Witness for C8: block 7 while another worker holds it, verdict no-go. -/
theorem no_go_pushes_once_witness :
    ParseUint (decimal 7) = some 7 ∧
    pushes (FetchBlockByNumber (busyEnv false) 1 7 true) = [decimal 7] ∧
    pushes (FetchBlockByHash (busyEnv false) 1 sampleBlock.Hash (decimal 7)) = [decimal 7] :=
  have h := no_go_pushes_once (busyEnv false) 1 7 true sampleBlock.Hash (decimal 7)
    (by decide) rfl rfl
  ⟨by decide, h.1.1, h.2.1⟩

open FetchGo in
/-- C9. `FetchBlockByNumber` and `FetchBlockByHash` pass their channel to
`Acquire` once; on every path on which the lock was obtained they call
`Release` exactly once, with that same channel, as their last step, also when
the node fetch fails and the number is pushed to the retry queue; on a path
where the lock was not obtained (no-go verdict, or a hint that does not parse)
they never call `Release`. -/
theorem release_exactly_when_held (env : FetchGo.Env) (comm : Chan) (number : Nat)
    (publishable : Bool) (hash : Hash) (hint : GoString) :
    (acquires (FetchBlockByNumber env comm number publishable) = [comm] ∧
      releases (FetchBlockByNumber env comm number publishable)
        = (if obtained env comm number then [comm] else []) ∧
      (obtained env comm number = true →
        (FetchBlockByNumber env comm number publishable).getLast? = some (Ev.release comm)) ∧
      (obtained env comm number = true → env.BlockByNumber number = none →
        pushes (FetchBlockByNumber env comm number publishable) = [decimal number] ∧
        releases (FetchBlockByNumber env comm number publishable) = [comm])) ∧
    (ParseUint hint = none →
      acquires (FetchBlockByHash env comm hash hint) = [] ∧
      releases (FetchBlockByHash env comm hash hint) = []) ∧
    (ParseUint hint = some number →
      acquires (FetchBlockByHash env comm hash hint) = [comm] ∧
      releases (FetchBlockByHash env comm hash hint)
        = (if obtained env comm number then [comm] else []) ∧
      (obtained env comm number = true →
        (FetchBlockByHash env comm hash hint).getLast? = some (Ev.release comm)) ∧
      (obtained env comm number = true → env.BlockByHash hash = none →
        pushes (FetchBlockByHash env comm hash hint) = [hint] ∧
        releases (FetchBlockByHash env comm hash hint) = [comm])) := by
  refine ⟨⟨?_, ?_, ?_, ?_⟩, ?_, ?_⟩
  · unfold FetchBlockByNumber acquireOrWait
    cases env.Acquire number comm <;> cases env.Verdict comm <;>
      cases env.BlockByNumber number <;> simp [acquires] <;> split <;> simp
  · unfold FetchBlockByNumber acquireOrWait obtained
    cases env.Acquire number comm <;> cases env.Verdict comm <;>
      cases env.BlockByNumber number <;> simp [releases] <;> split <;> simp
  · unfold FetchBlockByNumber acquireOrWait obtained
    cases env.Acquire number comm <;> cases env.Verdict comm <;>
      cases env.BlockByNumber number <;> simp <;> split <;> simp
  · intro ho hnone
    unfold obtained at ho
    unfold FetchBlockByNumber acquireOrWait
    cases ha : env.Acquire number comm <;> cases hv : env.Verdict comm <;>
      simp [ha, hv] at ho <;> simp [hnone, pushes, releases]
  · intro hp
    simp [FetchBlockByHash, hp, acquires, releases]
  · intro hp
    refine ⟨?_, ?_, ?_, ?_⟩
    · cases ha : env.Acquire number comm <;> cases hv : env.Verdict comm <;>
        cases hb : env.BlockByHash hash <;>
        simp [FetchBlockByHash, acquireOrWait, hp, ha, hv, hb, acquires]
    · cases ha : env.Acquire number comm <;> cases hv : env.Verdict comm <;>
        cases hb : env.BlockByHash hash <;>
        simp [FetchBlockByHash, acquireOrWait, obtained, hp, ha, hv, hb, releases]
    · cases ha : env.Acquire number comm <;> cases hv : env.Verdict comm <;>
        cases hb : env.BlockByHash hash <;>
        simp [FetchBlockByHash, acquireOrWait, obtained, hp, ha, hv, hb]
    · intro ho hnone
      unfold obtained at ho
      cases ha : env.Acquire number comm <;> cases hv : env.Verdict comm <;>
        simp [ha, hv] at ho <;>
        simp [FetchBlockByHash, acquireOrWait, hp, ha, hv, hnone, pushes, releases]

open FetchGo in
/-- Witness for C9: block 7 with a free lock and a node that fails. -/
theorem release_exactly_when_held_witness :
    obtained nodeDownEnv 1 7 = true ∧ nodeDownEnv.BlockByNumber 7 = none ∧
    ParseUint (decimal 7) = some 7 ∧ nodeDownEnv.BlockByHash sampleBlock.Hash = none ∧
    (pushes (FetchBlockByNumber nodeDownEnv 1 7 true) = [decimal 7] ∧
      releases (FetchBlockByNumber nodeDownEnv 1 7 true) = [1]) ∧
    (pushes (FetchBlockByHash nodeDownEnv 1 sampleBlock.Hash (decimal 7)) = [decimal 7] ∧
      releases (FetchBlockByHash nodeDownEnv 1 sampleBlock.Hash (decimal 7)) = [1]) :=
  have h := release_exactly_when_held nodeDownEnv 1 7 true sampleBlock.Hash (decimal 7)
  ⟨rfl, rfl, by decide, rfl, h.1.2.2.2 rfl rfl, (h.2.2 (by decide)).2.2.2 rfl rfl⟩

open FetchGo in
/-- C10. `FetchBlockByNumber` removes the block number's entry from the
attempt-count table exactly when the lock was obtained, the node fetch
succeeded and `ProcessBlockContent` returned true, and then once;
`FetchBlockByHash` removes no entry on any path. -/
theorem removal_only_by_number (env : FetchGo.Env) (comm : Chan) (number : Nat)
    (publishable : Bool) (hash : Hash) (hint : GoString) :
    (decimal number ∈ removals (FetchBlockByNumber env comm number publishable) ↔
      obtained env comm number = true ∧
      ∃ block, env.BlockByNumber number = some block ∧
        env.ProcessBlockContent block publishable = true) ∧
    (removals (FetchBlockByNumber env comm number publishable) = [decimal number] ∨
      removals (FetchBlockByNumber env comm number publishable) = []) ∧
    removals (FetchBlockByHash env comm hash hint) = [] := by
  refine ⟨?_, ?_, ?_⟩
  · cases ha : env.Acquire number comm <;> cases hv : env.Verdict comm <;>
      cases hb : env.BlockByNumber number <;>
      simp [FetchBlockByNumber, acquireOrWait, obtained, ha, hv, hb, removals] <;>
      split <;> simp_all
  · cases ha : env.Acquire number comm <;> cases hv : env.Verdict comm <;>
      cases hb : env.BlockByNumber number <;>
      simp [FetchBlockByNumber, acquireOrWait, ha, hv, hb, removals] <;>
      split <;> simp
  · cases hp : ParseUint hint with
    | none => simp [FetchBlockByHash, hp, removals]
    | some n =>
      cases ha : env.Acquire n comm <;> cases hv : env.Verdict comm <;>
        cases hb : env.BlockByHash hash <;>
        simp [FetchBlockByHash, acquireOrWait, hp, ha, hv, hb, removals]

theorem set_take_succ {α : Type} (l : List α) (k : Nat) (v : α) (hk : k < l.length) :
    (l.set k v).take (k + 1) = l.take k ++ [v] := by
  rw [List.set_eq_take_cons_drop v hk]
  have h : List.take k l ++ v :: List.drop (k + 1) l
      = (List.take k l ++ [v]) ++ List.drop (k + 1) l := by simp
  rw [h]
  apply List.take_left'
  simp [List.length_take]; omega

theorem set_last {α : Type} (l : List α) (k : Nat) (v : α) (hk : k + 1 = l.length) :
    l.set k v = l.take k ++ [v] := by
  rw [List.set_eq_take_cons_drop v (by omega)]
  rw [List.drop_eq_nil_of_le (by omega)]

/-- The drain loop stores the results in arrival order: the value received
`k`-th lands at index `k - 1`. -/
theorem drainLoop_gathers (n : Nat) (hn : n < 2 ^ 63) :
    ∀ (rs : List (Option PackedTransaction)) (st : DrainState),
      rs ≠ [] → st.packedTxs.length = n →
      st.result.Success + st.result.Failure + rs.length = n →
      ∃ st', drainLoop n rs st = (Exit.returned, st') ∧
        st'.packedTxs = st.packedTxs.take (st.result.Success + st.result.Failure) ++ rs := by
  intro rs
  induction rs with
  | nil => intro st h; exact absurd rfl h
  | cons v rest ih =>
    intro st _ hlen hsum
    simp only [List.length_cons] at hsum
    have hidx : (((st.result.Success + st.result.Failure + 1 : Nat) : Int) - 1).toNat
        = st.result.Success + st.result.Failure := by omega
    have hS : (st.result.Success + 1) % 2 ^ 64 = st.result.Success + 1 :=
      Nat.mod_eq_of_lt (by omega)
    have hF : (st.result.Failure + 1) % 2 ^ 64 = st.result.Failure + 1 :=
      Nat.mod_eq_of_lt (by omega)
    have hT1 : (st.result.Success + 1 + st.result.Failure) % 2 ^ 64
        = st.result.Success + st.result.Failure + 1 := by
      rw [Nat.mod_eq_of_lt (by omega)]; omega
    have hT2 : (st.result.Success + (st.result.Failure + 1)) % 2 ^ 64
        = st.result.Success + st.result.Failure + 1 := by
      rw [Nat.mod_eq_of_lt (by omega)]; omega
    have hres : ∀ st1 : DrainState,
        st1.packedTxs = st.packedTxs.set (st.result.Success + st.result.Failure) v →
        st1.result.Success + st1.result.Failure = st.result.Success + st.result.Failure + 1 →
        ∃ st', (if ((st.result.Success + st.result.Failure + 1 : Nat) : Int) = (n : Int)
            then (Exit.returned, st1) else drainLoop n rest st1) = (Exit.returned, st') ∧
          st'.packedTxs = st.packedTxs.take (st.result.Success + st.result.Failure)
            ++ v :: rest := by
      intro st1 hp hc
      cases rest with
      | nil =>
        simp only [List.length_nil] at hsum
        rw [if_pos (by omega)]
        exact ⟨st1, rfl, by rw [hp]; exact set_last _ _ _ (by omega)⟩
      | cons w rest2 =>
        simp only [List.length_cons] at hsum
        rw [if_neg (by omega)]
        obtain ⟨st2, h1, h2⟩ := ih st1 (by simp) (by rw [hp]; simp [hlen])
          (by simp only [List.length_cons]; omega)
        refine ⟨st2, h1, ?_⟩
        rw [h2, hc, hp, set_take_succ _ _ _ (by omega)]
        simp
    cases v with
    | none =>
      simp only [drainLoop, Option.isSome_none, Bool.false_eq_true, if_false,
        Data.ResultStatus.Total, hF, hT2]
      rw [toInt_of_lt _ (by omega), if_pos (by constructor <;> omega), hidx]
      exact hres _ rfl (by simp only; omega)
    | some p =>
      simp only [drainLoop, Option.isSome_some, if_true, Data.ResultStatus.Total, hS, hT1]
      rw [toInt_of_lt _ (by omega), if_pos (by constructor <;> omega), hidx]
      exact hres _ rfl (by simp only; omega)

/-- C12. For a block with zero transactions `FetchBlockContent` returns after
incrementing `blocks_processed` exactly once: it hands no job to the worker
pool, makes no Store write and no publication, calls no node method and
pushes nothing to the retry queue, whatever the channel would deliver. -/
theorem FetchBlockContent_empty_block (block : Block) (publishable : Bool)
    (results : List (Option PackedTransaction)) (h : block.Transactions.length = 0) :
    (FetchBlockContent block publishable results).exit = Exit.returned ∧
    increments (FetchBlockContent block publishable results).trace = 1 ∧
    submits (FetchBlockContent block publishable results).trace = [] ∧
    storeSteps (FetchBlockContent block publishable results).trace = [] ∧
    publishSteps (FetchBlockContent block publishable results).trace = [] ∧
    FetchGo.callsNode (FetchBlockContent block publishable results).trace = false ∧
    pushes (FetchBlockContent block publishable results).trace = [] := by
  unfold FetchBlockContent
  rw [if_pos h]
  refine ⟨rfl, ?_, rfl, rfl, rfl, rfl, rfl⟩
  decide

/-- Witness for C12: block 9, which has no transaction. -/
theorem FetchBlockContent_empty_block_witness :
    emptyBlock.Transactions.length = 0 ∧
    increments (FetchBlockContent emptyBlock true []).trace = 1 ∧
    submits (FetchBlockContent emptyBlock true []).trace = [] ∧
    pushes (FetchBlockContent emptyBlock true []).trace = [] :=
  have h := FetchBlockContent_empty_block emptyBlock true [] rfl
  ⟨rfl, h.2.1, h.2.2.1, h.2.2.2.2.2.2⟩

/-- One turn of the drain loop while fewer than `n` results are in: the
counters go up by one, the value lands at the index of the old total, and the
loop stops exactly when the new total is `n`. -/
theorem drainLoop_cons (n : Nat) (hn : n < 2 ^ 63) (v : Option PackedTransaction)
    (st : DrainState) (hlen : st.packedTxs.length = n)
    (hlt : st.result.Success + st.result.Failure < n) :
    ∃ st1 : DrainState,
      st1.packedTxs = st.packedTxs.set (st.result.Success + st.result.Failure) v ∧
      st1.result.Success + st1.result.Failure = st.result.Success + st.result.Failure + 1 ∧
      st1.received = st.received + 1 ∧
      ∀ rest, drainLoop n (v :: rest) st =
        if st.result.Success + st.result.Failure + 1 = n then (Exit.returned, st1)
        else drainLoop n rest st1 := by
  have hidx : (((st.result.Success + st.result.Failure + 1 : Nat) : Int) - 1).toNat
      = st.result.Success + st.result.Failure := by omega
  have hS : (st.result.Success + 1) % 2 ^ 64 = st.result.Success + 1 :=
    Nat.mod_eq_of_lt (by omega)
  have hF : (st.result.Failure + 1) % 2 ^ 64 = st.result.Failure + 1 :=
    Nat.mod_eq_of_lt (by omega)
  have hT1 : (st.result.Success + 1 + st.result.Failure) % 2 ^ 64
      = st.result.Success + st.result.Failure + 1 := by
    rw [Nat.mod_eq_of_lt (by omega)]; omega
  have hT2 : (st.result.Success + (st.result.Failure + 1)) % 2 ^ 64
      = st.result.Success + st.result.Failure + 1 := by
    rw [Nat.mod_eq_of_lt (by omega)]; omega
  cases v with
  | none =>
    refine ⟨{ result := { st.result with Failure := st.result.Failure + 1 }
              packedTxs := st.packedTxs.set (st.result.Success + st.result.Failure) none
              received := st.received + 1 }, rfl, by simp only; omega, rfl, ?_⟩
    intro rest
    simp only [drainLoop, Option.isSome_none, Bool.false_eq_true, if_false,
      Data.ResultStatus.Total, hF, hT2]
    rw [toInt_of_lt _ (by omega), if_pos (by constructor <;> omega), hidx]
    by_cases hc : st.result.Success + st.result.Failure + 1 = n
    · rw [if_pos (by omega), if_pos hc]
    · rw [if_neg (by omega), if_neg hc]
  | some p =>
    refine ⟨{ result := { st.result with Success := st.result.Success + 1 }
              packedTxs := st.packedTxs.set (st.result.Success + st.result.Failure) (some p)
              received := st.received + 1 }, rfl, by simp only; omega, rfl, ?_⟩
    intro rest
    simp only [drainLoop, Option.isSome_some, if_true, Data.ResultStatus.Total, hS, hT1]
    rw [toInt_of_lt _ (by omega), if_pos (by constructor <;> omega), hidx]
    by_cases hc : st.result.Success + st.result.Failure + 1 = n
    · rw [if_pos (by omega), if_pos hc]
    · rw [if_neg (by omega), if_neg hc]

/-- The drain loop stops after the `n`-th result: what the channel would
deliver after it is not read. -/
theorem drainLoop_append (n : Nat) (hn : n < 2 ^ 63) (extra : List (Option PackedTransaction)) :
    ∀ (rs : List (Option PackedTransaction)) (st : DrainState),
      rs ≠ [] → st.packedTxs.length = n →
      st.result.Success + st.result.Failure + rs.length = n →
      drainLoop n (rs ++ extra) st = drainLoop n rs st := by
  intro rs
  induction rs with
  | nil => intro st h; exact absurd rfl h
  | cons v rest ih =>
    intro st _ hlen hsum
    simp only [List.length_cons] at hsum
    obtain ⟨st1, hp, hc, -, hstep⟩ := drainLoop_cons n hn v st hlen (by omega)
    rw [List.cons_append, hstep, hstep]
    by_cases hlast : st.result.Success + st.result.Failure + 1 = n
    · rw [if_pos hlast, if_pos hlast]
    · rw [if_neg hlast, if_neg hlast]
      apply ih st1
      · intro hnil
        rw [hnil] at hsum
        simp only [List.length_nil] at hsum
        omega
      · rw [hp]; simp [hlen]
      · omega

/-- C13. For a block with `n ≥ 1` transactions and every stream of worker
results that delivers at least `n` values, the drain loop of
`FetchBlockContent` returns after reading exactly `n` of them; the `k`-th
value received (`1 ≤ k ≤ n`) is at index `k - 1` of the `n`-element slice, so
no write is out of range, and `Success + Failure = n` when the loop exits. -/
theorem drainLoop_reads_exactly_n (block : Block)
    (results extra : List (Option PackedTransaction))
    (hn : 1 ≤ block.Transactions.length) (hint : block.Transactions.length < 2 ^ 63)
    (hlen : results.length = block.Transactions.length) :
    ∃ st, drainLoop block.Transactions.length (results ++ extra) (drainStart block)
        = (Exit.returned, st) ∧
      st.received = block.Transactions.length ∧
      st.packedTxs.length = block.Transactions.length ∧
      (∀ k, 1 ≤ k → k ≤ block.Transactions.length →
        st.packedTxs[k - 1]? = (results ++ extra)[k - 1]?) ∧
      st.result.Success + st.result.Failure = block.Transactions.length ∧
      st.result.Total = block.Transactions.length := by
  have hne : results ≠ [] := by
    intro h; rw [h] at hlen; simp at hlen; omega
  have hstart : (drainStart block).packedTxs.length = block.Transactions.length := by
    simp [drainStart]
  have hsum : (drainStart block).result.Success + (drainStart block).result.Failure
      + results.length = block.Transactions.length := by
    simp [drainStart, hlen]
  obtain ⟨st, hrun, -, hcount, hrecv, hsize⟩ :=
    drainLoop_returns _ hint results (drainStart block) hne hstart hsum
  obtain ⟨st2, hrun2, hpacked⟩ :=
    drainLoop_gathers _ hint results (drainStart block) hne hstart hsum
  have hsame : st2 = st := by
    rw [hrun] at hrun2
    exact (Prod.mk.inj hrun2).2.symm
  subst hsame
  refine ⟨st2, ?_, ?_, hsize, ?_, hcount, ?_⟩
  · rw [drainLoop_append _ hint extra results (drainStart block) hne hstart hsum, hrun]
  · rw [hrecv]; simp [drainStart, hlen]
  · intro k hk1 hk2
    rw [hpacked]
    simp only [drainStart, Nat.add_zero, List.take_zero, List.nil_append]
    rw [List.getElem?_append_left (by omega)]
  · unfold Data.ResultStatus.Total
    rw [hcount]
    exact Nat.mod_eq_of_lt (by omega)

/-- Witness for C13: block 8, whose two workers deliver a result and a nil,
with a third value on the channel that is never read. -/
theorem drainLoop_reads_exactly_n_witness :
    1 ≤ twoTxBlock.Transactions.length ∧
    ∃ st, drainLoop twoTxBlock.Transactions.length
        ([some (BuildPackedTx sampleCreation ⟨[102, 48]⟩ sampleReceipt), none] ++ [none])
        (drainStart twoTxBlock) = (Exit.returned, st) ∧
      st.received = twoTxBlock.Transactions.length ∧
      st.packedTxs.length = twoTxBlock.Transactions.length ∧
      (∀ k, 1 ≤ k → k ≤ twoTxBlock.Transactions.length →
        st.packedTxs[k - 1]? =
          ([some (BuildPackedTx sampleCreation ⟨[102, 48]⟩ sampleReceipt), none]
            ++ [none])[k - 1]?) ∧
      st.result.Success + st.result.Failure = twoTxBlock.Transactions.length ∧
      st.result.Total = twoTxBlock.Transactions.length :=
  ⟨by decide, drainLoop_reads_exactly_n twoTxBlock
    [some (BuildPackedTx sampleCreation ⟨[102, 48]⟩ sampleReceipt), none] [none]
    (by decide) (by decide) (by decide)⟩

/-- C11 as the code has it. For a block with `n ≥ 1` transactions and every
order in which its tx workers complete, the array `FetchBlockContent` gathers
is in completion order: position `k` holds the result of the worker that
completed `k`-th. It is in canonical block order when the workers complete
in block order. -/
theorem gathered_in_completion_order (env : Env) (block : Block)
    (order : List (Fin block.Transactions.length))
    (hn : 1 ≤ block.Transactions.length) (hint : block.Transactions.length < 2 ^ 63)
    (hperm : order.Perm (List.finRange block.Transactions.length)) :
    gathered block (deliveries env block order) = deliveries env block order ∧
    (∀ k (hk : k < order.length),
      (gathered block (deliveries env block order))[k]?
        = some (FetchGo.FetchTransactionByHash env block
            (block.Transactions.get (order.get ⟨k, hk⟩))).2) ∧
    (order = List.finRange block.Transactions.length →
      gathered block (deliveries env block order) = blockOrder env block) := by
  have hlen : (deliveries env block order).length = block.Transactions.length := by
    simp [deliveries, hperm.length_eq]
  have hne : deliveries env block order ≠ [] := by
    intro h; rw [h] at hlen; simp at hlen; omega
  obtain ⟨st, hrun, hpacked⟩ := drainLoop_gathers _ hint (deliveries env block order)
    (drainStart block) hne (by simp [drainStart]) (by simp [drainStart, hlen])
  have hg : gathered block (deliveries env block order) = deliveries env block order := by
    unfold gathered
    rw [hrun, hpacked]
    simp [drainStart]
  refine ⟨hg, ?_, ?_⟩
  · intro k hk
    rw [hg]
    simp [deliveries, List.getElem?_map, List.getElem?_eq_getElem hk]
  · intro horder
    rw [hg, horder]
    unfold deliveries blockOrder
    have h := List.finRange_map_get block.Transactions
    conv_rhs => rw [← h]
    rw [List.map_map]
    rfl

/-- Counterexample to C11 as stated: when the worker of the second
transaction of block 8 completes before the worker of the first, position 0
of the gathered array holds the result for the second transaction. -/
theorem gathered_not_in_block_order :
    List.Perm [(⟨1, by decide⟩ : Fin twoTxBlock.Transactions.length), ⟨0, by decide⟩]
      (List.finRange twoTxBlock.Transactions.length) ∧
    gathered twoTxBlock (deliveries (sampleEnv "1") twoTxBlock [⟨1, by decide⟩, ⟨0, by decide⟩])
      = [some (BuildPackedTx sampleCreation ⟨[102, 48]⟩ sampleReceipt),
         some (BuildPackedTx sampleTx ⟨[102, 48]⟩ sampleReceipt)] ∧
    blockOrder (sampleEnv "1") twoTxBlock
      = [some (BuildPackedTx sampleTx ⟨[102, 48]⟩ sampleReceipt),
         some (BuildPackedTx sampleCreation ⟨[102, 48]⟩ sampleReceipt)] ∧
    gathered twoTxBlock (deliveries (sampleEnv "1") twoTxBlock [⟨1, by decide⟩, ⟨0, by decide⟩])
      ≠ blockOrder (sampleEnv "1") twoTxBlock := by
  refine ⟨?_, ?_, ?_, ?_⟩ <;> decide

/-- Witness for C11 as the code has it: block 8 with the second worker
completing first. -/
theorem gathered_in_completion_order_witness :
    1 ≤ twoTxBlock.Transactions.length ∧
    gathered twoTxBlock (deliveries (sampleEnv "1") twoTxBlock [⟨1, by decide⟩, ⟨0, by decide⟩])
      = deliveries (sampleEnv "1") twoTxBlock [⟨1, by decide⟩, ⟨0, by decide⟩] :=
  ⟨by decide, (gathered_in_completion_order (sampleEnv "1") twoTxBlock
    [⟨1, by decide⟩, ⟨0, by decide⟩] (by decide) (by decide) (by decide)).1⟩

open Pubsub in
/-- The slice `transaction.Data[2:]` of `Send` is within bounds for every
data field whose length is not one. -/
theorem Send_rebuild_in_bounds (transaction : WireTransaction)
    (h : transaction.Data.length ≠ 1) : Send.rebuild transaction ≠ Rebuilt.panicked := by
  unfold Send.rebuild
  split
  · rw [if_neg (by omega)]
    split <;> simp
  · simp

open Pubsub in
/-- The slice `transaction.Data[2:]` of `Send` is out of range for every data
field of length one. -/
theorem Send_rebuild_one_byte (transaction : WireTransaction)
    (h : transaction.Data.length = 1) : Send.rebuild transaction = Rebuilt.panicked := by
  unfold Send.rebuild
  rw [if_pos (by omega), if_pos (by omega)]

open Pubsub in
/-- For an admitted consumer, a data field that `hex.DecodeString` rejects
makes `Send` log, deliver nothing and return true. -/
theorem Send_undecodable (env : Pubsub.Env) (msg : Message) (user : User)
    (transaction : WireTransaction)
    (huser : env.GetUserFromAPIKey = some user) (henabled : user.Enabled = true)
    (hlimit : env.IsUnderRateLimit = true) (hobject : msg.object = some transaction)
    (hdata : Send.rebuild transaction = Rebuilt.undecodable) :
    Send env msg
      = ([Out.log "[!] Failed to decode data field of transaction"], some true) := by
  simp [Send, huser, henabled, hlimit, hobject, hdata]

open Pubsub in
/-- C14. The code at the failing input: the payload `{"data":"a"}` unmarshals,
its data field is not empty, and `transaction.Data[2:]` is out of range on
its one byte, so `Send` panics instead of returning. -/
theorem Send_panics_on_one_byte_data :
    oneByteData.object = some { Data := [97] } ∧
    Send.rebuild { Data := [97] } = Rebuilt.panicked ∧
    Send admitEnv oneByteData = ([], none) := by
  refine ⟨rfl, ?_, ?_⟩ <;> decide

end Ette
